import Mathlib

set_option maxHeartbeats 1600000

/-!
Verification development for the soroban-env-host interpreter core
(`src/soroban-env-host/src/host.rs`, `events.rs`,
`native_contract/token/balance.rs`).

The host state is embedded shallowly: the `RefCell` fields of `HostImpl`
become the fields of a `Host` structure, and every host operation becomes a
state-passing function `Host → Except HostError α × Host` (errors do not
roll state back by themselves, exactly as in the Rust source, where side
effects performed before an `Err` return persist).

Components of the repository that the sources do not include (the budget
meter, the storage backend, the `im_rc::OrdMap` container, the derived
ordering of `HostObject`, the XDR value conversions and the token contract
base types) are modelled from the specification; each such definition says
so in its doc comment.
-/

namespace Soroban

/-- Three-way comparison of naturals, by value. -/
def ncmp (a b : Nat) : Ordering :=
  if a < b then .lt else if b < a then .gt else .eq

/-- Three-way comparison of integers, by value. -/
def icmp (a b : Int) : Ordering :=
  if a < b then .lt else if b < a then .gt else .eq

/-- Properties making a three-way comparison a total preorder compatible
with `Ordering.swap`; all orderings used by the host satisfy them. -/
structure CmpProps {α : Type} (c : α → α → Ordering) : Prop where
  refl : ∀ a, c a a = .eq
  swapEq : ∀ a b, (c a b).swap = c b a
  leTrans : ∀ a b d, c a b ≠ .gt → c b d ≠ .gt → c a d ≠ .gt

theorem cmpProps_gt_iff_lt {α : Type} {c : α → α → Ordering} (h : CmpProps c)
    (a b : α) : c a b = .gt ↔ c b a = .lt := by
  constructor
  · intro hg
    have hs := h.swapEq a b
    rw [hg] at hs
    exact hs.symm
  · intro hl
    have hs := h.swapEq a b
    rw [← hs] at hl
    revert hl
    cases c a b <;> simp [Ordering.swap]

theorem cmpProps_eq_symm {α : Type} {c : α → α → Ordering} (h : CmpProps c)
    {a b : α} (he : c a b = .eq) : c b a = .eq := by
  have hs := h.swapEq a b
  rw [he] at hs
  exact hs.symm

theorem cmpProps_lt_of_le_le {α : Type} {c : α → α → Ordering} (h : CmpProps c)
    {a b d : α} (h1 : c a b ≠ .gt) (h2 : c b d ≠ .gt)
    (hlt : c a b = .lt ∨ c b d = .lt) : c a d = .lt := by
  have hne : c a d ≠ .gt := h.leTrans a b d h1 h2
  cases had : c a d with
  | lt => rfl
  | gt => exact absurd had hne
  | eq =>
    exfalso
    have hda : c d a ≠ .gt := by
      have := cmpProps_eq_symm h had
      simp [this]
    rcases hlt with hl | hl
    · have hba : c b a ≠ .gt := h.leTrans b d a h2 hda
      have : c b a = .gt := (cmpProps_gt_iff_lt h b a).mpr hl
      exact hba this
    · have hdb : c d b ≠ .gt := h.leTrans d a b hda h1
      have : c d b = .gt := (cmpProps_gt_iff_lt h d b).mpr hl
      exact hdb this

theorem cmpProps_lt_trans {α : Type} {c : α → α → Ordering} (h : CmpProps c)
    {a b d : α} (h1 : c a b = .lt) (h2 : c b d = .lt) : c a d = .lt :=
  cmpProps_lt_of_le_le h (by simp [h1]) (by simp [h2]) (Or.inl h1)

theorem cmpProps_eq_lt_trans {α : Type} {c : α → α → Ordering} (h : CmpProps c)
    {a b d : α} (h1 : c a b = .eq) (h2 : c b d = .lt) : c a d = .lt :=
  cmpProps_lt_of_le_le h (by simp [h1]) (by simp [h2]) (Or.inr h2)

theorem cmpProps_lt_eq_trans {α : Type} {c : α → α → Ordering} (h : CmpProps c)
    {a b d : α} (h1 : c a b = .lt) (h2 : c b d = .eq) : c a d = .lt :=
  cmpProps_lt_of_le_le h (by simp [h1]) (by simp [h2]) (Or.inl h1)

theorem cmpProps_eq_trans {α : Type} {c : α → α → Ordering} (h : CmpProps c)
    {a b d : α} (h1 : c a b = .eq) (h2 : c b d = .eq) : c a d = .eq := by
  have hne : c a d ≠ .gt := h.leTrans a b d (by simp [h1]) (by simp [h2])
  have hne2 : c d a ≠ .gt :=
    h.leTrans d b a (by simp [cmpProps_eq_symm h h2]) (by simp [cmpProps_eq_symm h h1])
  cases had : c a d with
  | eq => rfl
  | gt => exact absurd had hne
  | lt =>
    exfalso
    exact hne2 ((cmpProps_gt_iff_lt h d a).mpr had)

theorem ncmp_eq_iff (a b : Nat) : ncmp a b = .eq ↔ a = b := by
  unfold ncmp
  split
  · simp; omega
  · split
    · simp; omega
    · simp; omega

theorem ncmp_lt_iff (a b : Nat) : ncmp a b = .lt ↔ a < b := by
  unfold ncmp
  split
  · simp; omega
  · split
    · simp; omega
    · simp; omega

theorem ncmp_gt_iff (a b : Nat) : ncmp a b = .gt ↔ b < a := by
  unfold ncmp
  split
  · simp; omega
  · split
    · simp; omega
    · simp; omega

theorem icmp_eq_iff (a b : Int) : icmp a b = .eq ↔ a = b := by
  unfold icmp
  split
  · simp; omega
  · split
    · simp; omega
    · simp; omega

theorem icmp_lt_iff (a b : Int) : icmp a b = .lt ↔ a < b := by
  unfold icmp
  split
  · simp; omega
  · split
    · simp; omega
    · simp; omega

theorem icmp_gt_iff (a b : Int) : icmp a b = .gt ↔ b < a := by
  unfold icmp
  split
  · simp; omega
  · split
    · simp; omega
    · simp; omega

theorem ncmp_props : CmpProps ncmp := by
  refine ⟨?_, ?_, ?_⟩
  · intro a
    rw [ncmp_eq_iff]
  · intro a b
    rcases lt_trichotomy a b with h | h | h
    · rw [(ncmp_lt_iff a b).mpr h, (ncmp_gt_iff b a).mpr h]; rfl
    · subst h
      rw [(ncmp_eq_iff a a).mpr rfl]; rfl
    · rw [(ncmp_gt_iff a b).mpr h, (ncmp_lt_iff b a).mpr h]; rfl
  · intro a b d h1 h2
    rw [Ne, ncmp_gt_iff] at h1 h2 ⊢
    omega

theorem icmp_props : CmpProps icmp := by
  refine ⟨?_, ?_, ?_⟩
  · intro a
    rw [icmp_eq_iff]
  · intro a b
    rcases lt_trichotomy a b with h | h | h
    · rw [(icmp_lt_iff a b).mpr h, (icmp_gt_iff b a).mpr h]; rfl
    · subst h
      rw [(icmp_eq_iff a a).mpr rfl]; rfl
    · rw [(icmp_gt_iff a b).mpr h, (icmp_lt_iff b a).mpr h]; rfl
  · intro a b d h1 h2
    rw [Ne, icmp_gt_iff] at h1 h2 ⊢
    omega

/-- Lexicographic extension of a three-way comparison to lists (the order
used for vectors, byte strings and sorted map entries). -/
def lexCmp {α : Type} (c : α → α → Ordering) : List α → List α → Ordering
  | [], [] => .eq
  | [], _ :: _ => .lt
  | _ :: _, [] => .gt
  | a :: as, b :: bs =>
    match c a b with
    | .eq => lexCmp c as bs
    | o => o

/-- Entry comparison for map entries: key first, then value. -/
def pairCmp {α β : Type} (c : α → α → Ordering) (d : β → β → Ordering)
    (x y : α × β) : Ordering :=
  match c x.1 y.1 with
  | .eq => d x.2 y.2
  | o => o

/-- Comparison of `Option` values with `none` smallest, matching the
derived `Ord` of Rust's `Option`. -/
def optCmp {α : Type} (c : α → α → Ordering) : Option α → Option α → Ordering
  | none, none => .eq
  | none, some _ => .lt
  | some _, none => .gt
  | some a, some b => c a b

theorem lexCmp_swap {α : Type} {c : α → α → Ordering} (h : CmpProps c) :
    ∀ a b : List α, (lexCmp c a b).swap = lexCmp c b a := by
  intro a
  induction a with
  | nil => intro b; cases b <;> simp [lexCmp, Ordering.swap]
  | cons x xs ih =>
    intro b
    cases b with
    | nil => simp [lexCmp, Ordering.swap]
    | cons y ys =>
      simp only [lexCmp]
      cases hxy : c x y
      · have hyx : c y x = .gt := by
          have hs := h.swapEq x y
          rw [hxy] at hs
          exact ((cmpProps_gt_iff_lt h y x).mpr hxy)
        simp [hyx, Ordering.swap]
      · have hyx : c y x = .eq := cmpProps_eq_symm h hxy
        simp [hyx, ih ys]
      · have hyx : c y x = .lt := (cmpProps_gt_iff_lt h x y).mp hxy
        simp [hyx, Ordering.swap]

theorem lexCmp_props {α : Type} {c : α → α → Ordering} (h : CmpProps c) :
    CmpProps (lexCmp c) := by
  refine ⟨?_, lexCmp_swap h, ?_⟩
  · intro a
    induction a with
    | nil => rfl
    | cons x xs ih => simp [lexCmp, h.refl, ih]
  · intro a
    induction a with
    | nil =>
      intro b d h1 h2
      cases b <;> cases d <;> simp_all [lexCmp]
    | cons x xs ih =>
      intro b d h1 h2
      cases b with
      | nil => simp [lexCmp] at h1
      | cons y ys =>
        cases d with
        | nil => simp [lexCmp] at h2
        | cons z zs =>
          simp only [lexCmp] at h1 h2 ⊢
          cases hxy : c x y <;> rw [hxy] at h1 <;>
            cases hyz : c y z <;> rw [hyz] at h2 <;> simp_all
          · simp [cmpProps_lt_trans h hxy hyz]
          · simp [cmpProps_lt_eq_trans h hxy hyz]
          · simp [cmpProps_eq_lt_trans h hxy hyz]
          · simp [cmpProps_eq_trans h hxy hyz]
            exact ih ys zs h1 h2

theorem lexCmp_eq_iff {α : Type} {c : α → α → Ordering} (h : CmpProps c)
    (heq : ∀ a b, c a b = .eq ↔ a = b) :
    ∀ a b : List α, lexCmp c a b = .eq ↔ a = b := by
  intro a
  induction a with
  | nil => intro b; cases b <;> simp [lexCmp]
  | cons x xs ih =>
    intro b
    cases b with
    | nil => simp [lexCmp]
    | cons y ys =>
      simp only [lexCmp]
      cases hxy : c x y
      · have : x ≠ y := by
          intro he
          rw [he, h.refl] at hxy
          cases hxy
        simp_all
      · have hx : x = y := (heq x y).mp hxy
        simp [hx, ih ys]
      · have : x ≠ y := by
          intro he
          rw [he, h.refl] at hxy
          cases hxy
        simp_all

theorem pairCmp_props {α β : Type} {c : α → α → Ordering} {d : β → β → Ordering}
    (hc : CmpProps c) (hd : CmpProps d) : CmpProps (pairCmp c d) := by
  refine ⟨?_, ?_, ?_⟩
  · intro a; simp [pairCmp, hc.refl, hd.refl]
  · intro a b
    simp only [pairCmp]
    cases hab : c a.1 b.1
    · have : c b.1 a.1 = .gt := (cmpProps_gt_iff_lt hc b.1 a.1).mpr hab
      simp [this, Ordering.swap]
    · have : c b.1 a.1 = .eq := cmpProps_eq_symm hc hab
      simp [this, hd.swapEq]
    · have : c b.1 a.1 = .lt := (cmpProps_gt_iff_lt hc a.1 b.1).mp hab
      simp [this, Ordering.swap]
  · intro a b e h1 h2
    simp only [pairCmp] at h1 h2 ⊢
    cases hab : c a.1 b.1 <;> rw [hab] at h1 <;>
      cases hbe : c b.1 e.1 <;> rw [hbe] at h2 <;> simp_all
    · simp [cmpProps_lt_trans hc hab hbe]
    · simp [cmpProps_lt_eq_trans hc hab hbe]
    · simp [cmpProps_eq_lt_trans hc hab hbe]
    · simp [cmpProps_eq_trans hc hab hbe]
      exact hd.leTrans _ _ _ h1 h2

theorem optCmp_props {α : Type} {c : α → α → Ordering} (h : CmpProps c) :
    CmpProps (optCmp c) := by
  refine ⟨?_, ?_, ?_⟩
  · intro a; cases a <;> simp [optCmp, h.refl]
  · intro a b
    cases a <;> cases b
    · rfl
    · rfl
    · rfl
    · exact h.swapEq _ _
  · intro a b d h1 h2
    cases a <;> cases b <;> cases d <;> simp_all [optCmp]
    exact h.leTrans _ _ _ h1 h2

theorem cmpProps_comap {α β : Type} {c : α → α → Ordering} (h : CmpProps c)
    (f : β → α) : CmpProps (fun a b => c (f a) (f b)) := by
  refine ⟨?_, ?_, ?_⟩
  · intro a; exact h.refl (f a)
  · intro a b; exact h.swapEq (f a) (f b)
  · intro a b d h1 h2; exact h.leTrans (f a) (f b) (f d) h1 h2

theorem pairCmp_eq_iff {α β : Type} {c : α → α → Ordering} {d : β → β → Ordering}
    (hc : ∀ a b, c a b = .eq ↔ a = b) (hd : ∀ a b, d a b = .eq ↔ a = b)
    (x y : α × β) : pairCmp c d x y = .eq ↔ x = y := by
  simp only [pairCmp]
  cases hab : c x.1 y.1
  · have : x.1 ≠ y.1 := by
      intro he
      rw [← hc] at he
      rw [he] at hab
      cases hab
    simp [Prod.ext_iff, this]
  · have h1 : x.1 = y.1 := (hc x.1 y.1).mp hab
    simp [Prod.ext_iff, h1, hd]
  · have : x.1 ≠ y.1 := by
      intro he
      rw [← hc] at he
      rw [he] at hab
      cases hab
    simp [Prod.ext_iff, this]

/-- Object type tags, in the declaration order of the `HostObject` variants
in `host.rs` (`Vec`, `Map`, `U64`, `I64`, `Bin`, `BigInt`, `Hash`,
`PublicKey`, `ContractCode`). -/
inductive ObjType
  | vecT
  | mapT
  | u64T
  | i64T
  | binT
  | bigintT
  | hashT
  | pkT
  | codeT
  deriving DecidableEq, Repr

def ObjType.rank : ObjType → Nat
  | .vecT => 0
  | .mapT => 1
  | .u64T => 2
  | .i64T => 3
  | .binT => 4
  | .bigintT => 5
  | .hashT => 6
  | .pkT => 7
  | .codeT => 8

theorem objTypeRank_inj (t u : ObjType) : t.rank = u.rank ↔ t = u := by
  cases t <;> cases u <;> simp [ObjType.rank]

/-- The 64-bit tagged value crossing the guest/host boundary. Payloads are
modelled at their semantic width (`Nat` for unsigned payloads, `Int` for
signed ones, the packed 64-bit representation for symbols); the common
crate holding the bit-level encoding is not among the sources. -/
inductive RawVal
  | voidV
  | boolV (b : Bool)
  | statusV (code : Nat)
  | u32V (n : Nat)
  | i32V (n : Int)
  | symbolV (s : Nat)
  | objectV (t : ObjType) (h : Nat)
  deriving DecidableEq, Repr

def RawVal.tagRank : RawVal → Nat
  | .voidV => 0
  | .boolV _ => 1
  | .statusV _ => 2
  | .u32V _ => 3
  | .i32V _ => 4
  | .symbolV _ => 5
  | .objectV _ _ => 6

def RawVal.payKey : RawVal → Int × Int
  | .voidV => (0, 0)
  | .boolV b => (if b then 1 else 0, 0)
  | .statusV c => (c, 0)
  | .u32V n => (n, 0)
  | .i32V n => (n, 0)
  | .symbolV s => (s, 0)
  | .objectV t h => (t.rank, h)

def RawVal.sortKey (v : RawVal) : Nat × Int × Int := (v.tagRank, v.payKey)

/-- Canonical ordering of two RawVals. Modelled from the spec: same tag
compares payloads, different tags fall back to the ordering of the tag
enum (the bit-level comparison lives in the common crate, outside the
sources). -/
def RawVal.cmp (a b : RawVal) : Ordering :=
  pairCmp ncmp (pairCmp icmp icmp) a.sortKey b.sortKey

theorem rawCmp_props : CmpProps RawVal.cmp :=
  cmpProps_comap (pairCmp_props ncmp_props (pairCmp_props icmp_props icmp_props))
    RawVal.sortKey

theorem rawSortKey_inj (a b : RawVal) : a.sortKey = b.sortKey ↔ a = b := by
  cases a <;> cases b <;>
    simp_all [RawVal.sortKey, RawVal.tagRank, RawVal.payKey, Prod.ext_iff]
  case boolV.boolV x y => cases x <;> cases y <;> simp
  case objectV.objectV t h u i => exact fun _ => objTypeRank_inj t u

theorem rawCmp_eq_iff (a b : RawVal) : RawVal.cmp a b = .eq ↔ a = b := by
  rw [RawVal.cmp,
    pairCmp_eq_iff ncmp_eq_iff (pairCmp_eq_iff icmp_eq_iff icmp_eq_iff),
    rawSortKey_inj]

/-- Compiled contract code stored in the ledger: a WASM blob or the
built-in token designator. -/
inductive ContractCode
  | wasm (code : List Nat)
  | token
  deriving DecidableEq, Repr

def ContractCode.cmp : ContractCode → ContractCode → Ordering
  | .wasm a, .wasm b => lexCmp ncmp a b
  | .wasm _, .token => .lt
  | .token, .wasm _ => .gt
  | .token, .token => .eq

theorem ccCmp_props : CmpProps ContractCode.cmp := by
  refine ⟨?_, ?_, ?_⟩
  · intro a
    cases a
    · exact (lexCmp_props ncmp_props).refl _
    · rfl
  · intro a b
    cases a <;> cases b
    · exact (lexCmp_props ncmp_props).swapEq _ _
    · rfl
    · rfl
    · rfl
  · intro a b d h1 h2
    cases a <;> cases b <;> cases d <;>
      first
        | exact absurd rfl h1
        | exact absurd rfl h2
        | exact (lexCmp_props ncmp_props).leTrans _ _ _ h1 h2
        | (intro hc; exact nomatch hc)

/-- A heap object in the host's append-only object table, mirroring the
`HostObject` variants of the repository (`host_object.rs`); container
elements are the raw values they hold (the `WeakHost` back-pointers of
`HostVal` carry no data and are dropped). -/
inductive HostObject
  | vecO (xs : List RawVal)
  | mapO (entries : List (RawVal × RawVal))
  | u64O (n : Nat)
  | i64O (n : Int)
  | binO (bs : List Nat)
  | bigintO (n : Int)
  | hashO (bs : List Nat)
  | pkO (bs : List Nat)
  | codeO (c : ContractCode)
  deriving DecidableEq, Repr

def HostObject.rank : HostObject → Nat
  | .vecO _ => 0
  | .mapO _ => 1
  | .u64O _ => 2
  | .i64O _ => 3
  | .binO _ => 4
  | .bigintO _ => 5
  | .hashO _ => 6
  | .pkO _ => 7
  | .codeO _ => 8

/-- Object type of a host object (the `HOT::get_type` association). -/
def HostObject.objType : HostObject → ObjType
  | .vecO _ => .vecT
  | .mapO _ => .mapT
  | .u64O _ => .u64T
  | .i64O _ => .i64T
  | .binO _ => .binT
  | .bigintO _ => .bigintT
  | .hashO _ => .hashT
  | .pkO _ => .pkT
  | .codeO _ => .codeT

/-- Total ordering of host objects. Modelled from the spec: the derived
`Ord` of `HostObject` is variant order first, then payload, with maps
compared lexicographically on their sorted (key, value) pairs
(`host_object.rs` is not among the sources). -/
def HostObject.cmp : HostObject → HostObject → Ordering
  | .vecO xs, .vecO ys => lexCmp RawVal.cmp xs ys
  | .mapO xs, .mapO ys => lexCmp (pairCmp RawVal.cmp RawVal.cmp) xs ys
  | .u64O m, .u64O n => ncmp m n
  | .i64O m, .i64O n => icmp m n
  | .binO m, .binO n => lexCmp ncmp m n
  | .bigintO m, .bigintO n => icmp m n
  | .hashO m, .hashO n => lexCmp ncmp m n
  | .pkO m, .pkO n => lexCmp ncmp m n
  | .codeO c, .codeO d => ContractCode.cmp c d
  | a, b => ncmp a.rank b.rank

theorem hostObjCmp_props : CmpProps HostObject.cmp := by
  refine ⟨?_, ?_, ?_⟩
  · intro a
    cases a <;>
      first
        | exact (lexCmp_props rawCmp_props).refl _
        | exact (lexCmp_props (pairCmp_props rawCmp_props rawCmp_props)).refl _
        | exact ncmp_props.refl _
        | exact icmp_props.refl _
        | exact (lexCmp_props ncmp_props).refl _
        | exact ccCmp_props.refl _
  · intro a b
    cases a <;> cases b <;>
      first
        | rfl
        | exact (lexCmp_props rawCmp_props).swapEq _ _
        | exact (lexCmp_props (pairCmp_props rawCmp_props rawCmp_props)).swapEq _ _
        | exact ncmp_props.swapEq _ _
        | exact icmp_props.swapEq _ _
        | exact (lexCmp_props ncmp_props).swapEq _ _
        | exact ccCmp_props.swapEq _ _
  · intro a b d h1 h2
    cases a <;> cases b <;> cases d <;>
      first
        | exact absurd rfl h1
        | exact absurd rfl h2
        | exact (lexCmp_props rawCmp_props).leTrans _ _ _ h1 h2
        | exact (lexCmp_props (pairCmp_props rawCmp_props rawCmp_props)).leTrans _ _ _ h1 h2
        | exact ncmp_props.leTrans _ _ _ h1 h2
        | exact icmp_props.leTrans _ _ _ h1 h2
        | exact (lexCmp_props ncmp_props).leTrans _ _ _ h1 h2
        | exact ccCmp_props.leTrans _ _ _ h1 h2
        | (intro hc; exact nomatch hc)

/-- Status codes, one constructor per (domain, code) pair the modelled
operations produce. `unknownGeneral` doubles as the `UNKNOWN_ERROR`
constant of the common crate (domain `Unknown`, code `General`). -/
inductive Status
  | okS
  | unknownGeneral
  | budgetExceeded
  | objUnknownReference
  | objUnexpectedType
  | objCountExceedsU32Max
  | objVecIndexOutOfBound
  | storageMissingValue
  | storageExpectContractData
  | contextNoContractRunning
  | fnInputArgsWrongLength
  | fnInputArgsInvalid
  | valUnknownError
  deriving DecidableEq, Repr

/-- Numeric payload used when a `Status` is packed into a status-tagged
RawVal; any injective enumeration serves, the codes themselves live in the
XDR crate outside the sources. -/
def Status.code : Status → Nat
  | .okS => 0
  | .unknownGeneral => 1
  | .budgetExceeded => 2
  | .objUnknownReference => 3
  | .objUnexpectedType => 4
  | .objCountExceedsU32Max => 5
  | .objVecIndexOutOfBound => 6
  | .storageMissingValue => 7
  | .storageExpectContractData => 8
  | .contextNoContractRunning => 9
  | .fnInputArgsWrongLength => 10
  | .fnInputArgsInvalid => 11
  | .valUnknownError => 12

def Status.toRaw (s : Status) : RawVal := RawVal.statusV s.code

/-- A host error: a status enriched with the message of its debug event
(`HostError` combines a `Status` with an optional debug event). -/
structure HostError where
  status : Status
  msg : Option String
  deriving DecidableEq, Repr

def errStatus (s : Status) : HostError := ⟨s, none⟩

def errStatusMsg (s : Status) (m : String) : HostError := ⟨s, some m⟩

/-- `err_general`: a `ScUnknownErrorCode::General` status with a message. -/
def errGeneral (m : String) : HostError := ⟨.unknownGeneral, some m⟩

def budgetError : HostError := ⟨.budgetExceeded, none⟩

/-- One argument of a debug event (`events.rs` `DebugArg`). -/
inductive DebugArg
  | strA (s : String)
  | valA (v : RawVal)
  deriving DecidableEq, Repr

/-- A diagnostic record in the events buffer (`events.rs` `DebugEvent`). -/
structure DebugEvent where
  msg : Option String
  args : List DebugArg
  deriving DecidableEq, Repr

/-- An entry of the host event log (`events.rs` `HostEvent`); the contract
event payload is kept abstract, no claim inspects it. -/
inductive HostEvent
  | debugE (de : DebugEvent)
  | contractE (cid : Option (List Nat)) (evType : Nat)
  deriving DecidableEq, Repr

/-- Cost categories charged by the modelled operations. The categories of
the metered containers (whose sources are not included) are collapsed to
one category per container. -/
inductive CostType
  | hostEventDebug
  | pushFrameCost
  | popFrameCost
  | guardFrame
  | visitObject
  | valXdrConv
  | hostObjAllocSlot
  | hostVecAllocCell
  | hostMapAllocCell
  | hostU64AllocCell
  | hostI64AllocCell
  | hostBinAllocCell
  | hostBigIntAllocCell
  | scVecFromHostVec
  | scMapFromHostMap
  | scVecToHostVec
  | scMapToHostMap
  | callArgsUnpack
  | hostMapOp
  | hostVecOp
  | bigIntOp
  deriving DecidableEq, Repr

/-- Budget counters. Modelled from the spec: `budget.rs` is not among the
sources; the global total and its hard limit are kept, the per-category
counters and the linear coefficients are dropped (each charge adds its
input, i.e. coefficients a = 0, b = 1 — no claim depends on the
coefficients, only on charges being able to fail). -/
structure Budget where
  limit : Nat
  total : Nat
  deriving DecidableEq, Repr

inductive HostFunctionKind
  | callHF
  | createContractHF
  deriving DecidableEq, Repr

/-- One invocation context on the frame stack (`host.rs` `Frame`); a
contract id is a 32-byte hash, modelled as its byte list. For `ContractVM`
only the contract id of the `Vm` is kept — the engine itself is an
external black box. -/
inductive Frame
  | contractVM (cid : List Nat)
  | hostFunctionFrame (k : HostFunctionKind)
  | tokenFrame (cid : List Nat)
  | testContractFrame (cid : List Nat)
  deriving DecidableEq, Repr

/-- XDR-side values stored in ledger entries. Modelled from the spec: the
XDR crate is not among the sources; `ScVal`/`ScObject` are flattened into
a single inductive, object constructors mirroring the `ScObject` variants
the source converts (`from_host_obj`). -/
inductive ScVal
  | voidS
  | boolS (b : Bool)
  | statusS (code : Nat)
  | u32S (n : Nat)
  | i32S (n : Int)
  | symbolS (s : Nat)
  | vecS (xs : List ScVal)
  | mapS (es : List (ScVal × ScVal))
  | u64S (n : Nat)
  | i64S (n : Int)
  | bytesS (bs : List Nat)
  | bigintS (n : Int)
  | hashS (bs : List Nat)
  | pkS (bs : List Nat)
  | codeS (c : ContractCode)

/-- Ledger keys. Modelled from the spec: the contract-data key is
`(contract_id, user_key_as_ScVal)`; installed contract code lives under a
dedicated key of its contract id (`contract_code_ledger_key`). -/
inductive LedgerKey
  | contractData (cid : List Nat) (key : ScVal)
  | contractCodeK (cid : List Nat)

/-- Payload of a ledger entry; entries other than contract data and
contract code are opaque to the host core. -/
inductive LedgerEntryData
  | contractDataE (cid : List Nat) (key : ScVal) (val : ScVal)
  | contractCodeE (cc : ContractCode)
  | otherE

/-- A ledger entry (`last_modified_ledger_seq` is always written as 0 by
the host). -/
structure LedgerEntry where
  lastModifiedLedgerSeq : Nat
  data : LedgerEntryData

mutual

def scValBeq : ScVal → ScVal → Bool
  | .voidS, .voidS => true
  | .boolS a, .boolS b => a == b
  | .statusS a, .statusS b => a == b
  | .u32S a, .u32S b => a == b
  | .i32S a, .i32S b => a == b
  | .symbolS a, .symbolS b => a == b
  | .vecS xs, .vecS ys => scValListBeq xs ys
  | .mapS xs, .mapS ys => scValPairListBeq xs ys
  | .u64S a, .u64S b => a == b
  | .i64S a, .i64S b => a == b
  | .bytesS a, .bytesS b => a == b
  | .bigintS a, .bigintS b => a == b
  | .hashS a, .hashS b => a == b
  | .pkS a, .pkS b => a == b
  | .codeS a, .codeS b => a == b
  | _, _ => false

def scValListBeq : List ScVal → List ScVal → Bool
  | [], [] => true
  | x :: xs, y :: ys => scValBeq x y && scValListBeq xs ys
  | _, _ => false

def scValPairListBeq : List (ScVal × ScVal) → List (ScVal × ScVal) → Bool
  | (k1, v1) :: xs, (k2, v2) :: ys =>
    scValBeq k1 k2 && scValBeq v1 v2 && scValPairListBeq xs ys
  | [], [] => true
  | _, _ => false

end

def ledgerKeyBeq : LedgerKey → LedgerKey → Bool
  | .contractData c1 k1, .contractData c2 k2 => c1 == c2 && scValBeq k1 k2
  | .contractCodeK c1, .contractCodeK c2 => c1 == c2
  | _, _ => false

/-- Lookup in the storage overlay: the most recent binding of a key. -/
def overlayLookup (m : List (LedgerKey × Option LedgerEntry)) (k : LedgerKey) :
    Option (Option LedgerEntry) :=
  match m with
  | [] => none
  | (k2, v) :: rest => if ledgerKeyBeq k2 k then some v else overlayLookup rest k

def parentLookup (m : List (LedgerKey × LedgerEntry)) (k : LedgerKey) :
    Option LedgerEntry :=
  match m with
  | [] => none
  | (k2, v) :: rest => if ledgerKeyBeq k2 k then some v else parentLookup rest k

/-- The transactional storage. Modelled from the spec: `storage.rs` is not
among the sources; a persistent map `key → option entry` overlays the
backing store, a `none` binding records a delete. Bindings shadow older
ones; footprint enforcement and read recording are not modelled (no claim
touches them). -/
structure Storage where
  map : List (LedgerKey × Option LedgerEntry)
  parent : List (LedgerKey × LedgerEntry)

def Storage.hasKey (s : Storage) (k : LedgerKey) : Bool :=
  match overlayLookup s.map k with
  | some (some _) => true
  | some none => false
  | none =>
    match parentLookup s.parent k with
    | some _ => true
    | none => false

def Storage.getEntry (s : Storage) (k : LedgerKey) : Except HostError LedgerEntry :=
  match overlayLookup s.map k with
  | some (some e) => .ok e
  | some none => .error (errStatus .storageMissingValue)
  | none =>
    match parentLookup s.parent k with
    | some e => .ok e
    | none => .error (errStatus .storageMissingValue)

def Storage.putEntry (s : Storage) (k : LedgerKey) (e : LedgerEntry) : Storage :=
  { s with map := (k, some e) :: s.map }

def Storage.delEntry (s : Storage) (k : LedgerKey) : Storage :=
  { s with map := (k, none) :: s.map }

/-- Snapshot taken by `push_frame` for rolling a (sub-)transaction back
(`host.rs` `RollbackPoint`). -/
structure RollbackPoint where
  storage : List (LedgerKey × Option LedgerEntry)
  objects : Nat

/-- The host state: the `RefCell` fields of `HostImpl`. The ledger-info
slot and the testutils contract registry are omitted (no claim touches
them). -/
structure Host where
  objects : List HostObject
  storage : Storage
  context : List Frame
  budget : Budget
  events : List HostEvent

/-- A host computation: state passing with errors that do not undo state
changes already made, exactly as `&self` methods returning
`Result<_, HostError>` behave. -/
def HostM (α : Type) : Type := Host → Except HostError α × Host

instance : Monad HostM where
  pure a := fun st => (.ok a, st)
  bind m f := fun st =>
    match m st with
    | (.ok a, st2) => f a st2
    | (.error e, st2) => (.error e, st2)

def throwH {α : Type} (e : HostError) : HostM α := fun st => (.error e, st)

@[simp]
theorem pure_apply {α : Type} (a : α) (st : Host) :
    (pure a : HostM α) st = (.ok a, st) := rfl

@[simp]
theorem bind_apply {α β : Type} (m : HostM α) (f : α → HostM β) (st : Host) :
    (m >>= f) st =
      match m st with
      | (.ok a, st2) => f a st2
      | (.error e, st2) => (.error e, st2) := rfl

@[simp]
theorem throwH_apply {α : Type} (e : HostError) (st : Host) :
    (throwH e : HostM α) st = (.error e, st) := rfl

/-- `Host::charge_budget`. Modelled from the spec for the charging rule
itself (see `Budget`): the input is added to the global total; going past
the limit is `BudgetExceeded`, and the total is recorded even then, so
every later charge fails as well. -/
def chargeBudget (ty : CostType) (input : Nat) : HostM Unit := fun st =>
  let b2 : Budget := ⟨st.budget.limit, st.budget.total + input⟩
  if b2.total ≤ b2.limit then (.ok (), { st with budget := b2 })
  else (.error budgetError, { st with budget := b2 })

/-- `Host::record_debug_event` (`host.rs` lines 221-235): the event is
appended first (`events.rs` `Events::record_debug_event`, which returns
the argument count), and only then is `HostEventDebug` charged with that
count. -/
def recordDebugEvent (de : DebugEvent) : HostM Unit := fun st =>
  chargeBudget .hostEventDebug de.args.length
    { st with events := st.events ++ [HostEvent.debugE de] }

/-- `Host::push_frame`: charge `PushFrame`, push the frame, snapshot the
object count and the storage overlay map. -/
def pushFrame (f : Frame) : HostM RollbackPoint := fun st =>
  match chargeBudget .pushFrameCost 1 st with
  | (.ok _, st2) =>
    let st3 := { st2 with context := st2.context ++ [f] }
    (.ok ⟨st3.storage.map, st3.objects.length⟩, st3)
  | (.error e, st2) => (.error e, st2)

/-- `Host::pop_frame`: charge `PopFrame`, pop the top frame, and when a
rollback point is supplied truncate the object table to it and replace the
storage overlay map with it. The source `expect`s a non-empty stack; the
callers below always push first. -/
def popFrame (orp : Option RollbackPoint) : HostM Unit := fun st =>
  match chargeBudget .popFrameCost 1 st with
  | (.ok _, st2) =>
    let st3 := { st2 with context := st2.context.dropLast }
    match orp with
    | some rp =>
      (.ok (), { st3 with
        objects := st3.objects.take rp.objects,
        storage := { st3.storage with map := rp.storage } })
    | none => (.ok (), st3)
  | (.error e, st2) => (.error e, st2)

/-- `Host::with_frame` (`host.rs` lines 334-353): charge `GuardFrame`,
push, run the body, then pop — with the rollback point exactly when the
body failed — propagating a pop failure itself. The final
`assert_eq!(start_depth, end_depth)` of the source is not modelled as an
effect; the depth theorems below settle when it holds. -/
def withFrame {α : Type} (f : Frame) (body : HostM α) : HostM α := fun st =>
  match chargeBudget .guardFrame 1 st with
  | (.error e, st1) => (.error e, st1)
  | (.ok _, st1) =>
    match pushFrame f st1 with
    | (.error e, st2) => (.error e, st2)
    | (.ok rp, st2) =>
      match body st2 with
      | (.ok a, st3) =>
        match popFrame none st3 with
        | (.ok _, st4) => (.ok a, st4)
        | (.error e, st4) => (.error e, st4)
      | (.error e, st3) =>
        match popFrame (some rp) st3 with
        | (.ok _, st4) => (.error e, st4)
        | (.error e2, st4) => (.error e2, st4)

/-- An object reference: the handle plus the object type recorded in the
`Object`-tagged RawVal. -/
structure ObjRef where
  ty : ObjType
  handle : Nat
  deriving DecidableEq, Repr

def ObjRef.toRaw (o : ObjRef) : RawVal := RawVal.objectV o.ty o.handle

/-- Handle bits that `unchecked_from_val` reads out of a RawVal. The
source call is `unsafe`; it is only meaningful for object-tagged values,
which is the only way the modelled operations use it. -/
def rawHandleBits : RawVal → Nat
  | .objectV _ h => h
  | _ => 0

/-- `Host::unchecked_visit_val_obj`: charge `VisitObject`, then hand the
(optional) object at the handle index to the closure. -/
def uncheckedVisitValObj {α : Type} (handle : Nat)
    (f : Option HostObject → HostM α) : HostM α := fun st =>
  match chargeBudget .visitObject 1 st with
  | (.ok _, st2) => f st2.objects[handle]? st2
  | (.error e, st2) => (.error e, st2)

/-- `Host::visit_obj`, parameterised by the `HOT::try_extract` of the
expected host object type: a missing slot is `UnknownReference`, a variant
mismatch is `UnexpectedType`. -/
def visitObjWith {β α : Type} (ext : HostObject → Option β) (o : ObjRef)
    (f : β → HostM α) : HostM α :=
  uncheckedVisitValObj o.handle (fun hopt =>
    match hopt with
    | none => throwH (errStatus .objUnknownReference)
    | some ho =>
      match ext ho with
      | none => throwH (errStatus .objUnexpectedType)
      | some b => f b)

def extractU64 : HostObject → Option Nat
  | .u64O n => some n
  | _ => none

def extractI64 : HostObject → Option Int
  | .i64O n => some n
  | _ => none

def extractVec : HostObject → Option (List RawVal)
  | .vecO xs => some xs
  | _ => none

def extractMap : HostObject → Option (List (RawVal × RawVal))
  | .mapO es => some es
  | _ => none

def extractBin : HostObject → Option (List Nat)
  | .binO bs => some bs
  | _ => none

def extractBigInt : HostObject → Option Int
  | .bigintO n => some n
  | _ => none

/-- Bit length of a big integer (`num_bigint` `bits()`: 0 for zero,
otherwise the position of the highest set bit of the magnitude plus 1). -/
def bitsOf (n : Int) : Nat := if n = 0 then 0 else n.natAbs.log2 + 1

/-- The extra per-kind allocation charge of
`Host::charge_for_new_host_object`. -/
def hostObjectExtraCharge : HostObject → Option (CostType × Nat)
  | .vecO v => some (.hostVecAllocCell, v.length)
  | .mapO m => some (.hostMapAllocCell, m.length)
  | .u64O _ => some (.hostU64AllocCell, 1)
  | .i64O _ => some (.hostI64AllocCell, 1)
  | .binO b => some (.hostBinAllocCell, b.length)
  | .bigintO n => some (.hostBigIntAllocCell, bitsOf n)
  | .hashO _ => none
  | .pkO _ => none
  | .codeO _ => none

/-- `Host::charge_for_new_host_object`: one `HostObjAllocSlot` unit plus
the per-kind cell charge. -/
def chargeForNewHostObject (ho : HostObject) : HostM HostObject := fun st =>
  match chargeBudget .hostObjAllocSlot 1 st with
  | (.error e, st2) => (.error e, st2)
  | (.ok _, st2) =>
    match hostObjectExtraCharge ho with
    | none => (.ok ho, st2)
    | some (ty, n) =>
      match chargeBudget ty n st2 with
      | (.ok _, st3) => (.ok ho, st3)
      | (.error e, st3) => (.error e, st3)

def uint32Max : Nat := 4294967295

/-- `Host::add_host_object`: reject handles past `u32::MAX`, charge for
the new object, append it, and return the typed handle. -/
def addHostObject (ho : HostObject) : HostM ObjRef := fun st =>
  let handle := st.objects.length
  if handle > uint32Max then (.error (errStatus .objCountExceedsU32Max), st)
  else
    match chargeForNewHostObject ho st with
    | (.ok ho2, st2) =>
      (.ok ⟨ho.objType, handle⟩, { st2 with objects := st2.objects ++ [ho2] })
    | (.error e, st2) => (.error e, st2)

/-- `CheckedEnv::obj_from_u64`. -/
def objFromU64 (u : Nat) : HostM ObjRef := addHostObject (.u64O u)

/-- `CheckedEnv::obj_to_u64`. -/
def objToU64 (o : ObjRef) : HostM Nat :=
  visitObjWith extractU64 o (fun u => pure u)

/-- `CheckedEnv::obj_from_i64`. -/
def objFromI64 (i : Int) : HostM ObjRef := addHostObject (.i64O i)

/-- `CheckedEnv::obj_to_i64`. -/
def objToI64 (o : ObjRef) : HostM Int :=
  visitObjWith extractI64 o (fun i => pure i)

def ordToInt : Ordering → Int
  | .lt => -1
  | .eq => 0
  | .gt => 1

/-- `CheckedEnv::obj_cmp` (`host.rs` lines 949-960): visit both handles
unchecked and compare the two `Option<&HostObject>` values with the
object ordering, mapping the `Ordering` onto -1/0/1. -/
def objCmp (a b : RawVal) : HostM Int :=
  uncheckedVisitValObj (rawHandleBits a) (fun ao =>
    uncheckedVisitValObj (rawHandleBits b) (fun bo =>
      pure (ordToInt (optCmp HostObject.cmp ao bo))))

/-- State after charging `n` budget units. -/
def bumpB (st : Host) (n : Nat) : Host :=
  { st with budget := ⟨st.budget.limit, st.budget.total + n⟩ }

theorem chargeBudget_ok (ty : CostType) (n : Nat) (st : Host)
    (h : st.budget.total + n ≤ st.budget.limit) :
    chargeBudget ty n st = (.ok (), bumpB st n) := by
  unfold chargeBudget bumpB
  simp [h]

theorem chargeBudget_fail (ty : CostType) (n : Nat) (st : Host)
    (h : ¬ st.budget.total + n ≤ st.budget.limit) :
    chargeBudget ty n st = (.error budgetError, bumpB st n) := by
  unfold chargeBudget bumpB
  simp [h]

/-- State right after a successful `GuardFrame` charge, `PushFrame` charge
and frame push inside `with_frame`: two units charged, the frame on top,
everything else untouched. -/
def framedState (st : Host) (f : Frame) : Host :=
  { st with
    budget := ⟨st.budget.limit, st.budget.total + 2⟩,
    context := st.context ++ [f] }

theorem withFrame_run {α : Type} (f : Frame) (body : HostM α) (st : Host)
    (h2 : st.budget.total + 2 ≤ st.budget.limit) :
    withFrame f body st =
      match body (framedState st f) with
      | (.ok a, st3) =>
        if st3.budget.total + 1 ≤ st3.budget.limit
        then (.ok a, { st3 with
                context := st3.context.dropLast,
                budget := ⟨st3.budget.limit, st3.budget.total + 1⟩ })
        else (.error budgetError,
              { st3 with budget := ⟨st3.budget.limit, st3.budget.total + 1⟩ })
      | (.error e, st3) =>
        if st3.budget.total + 1 ≤ st3.budget.limit
        then (.error e, { st3 with
                context := st3.context.dropLast,
                budget := ⟨st3.budget.limit, st3.budget.total + 1⟩,
                objects := st3.objects.take st.objects.length,
                storage := { st3.storage with map := st.storage.map } })
        else (.error budgetError,
              { st3 with budget := ⟨st3.budget.limit, st3.budget.total + 1⟩ })
      := by
  have hg : st.budget.total + 1 ≤ st.budget.limit := by omega
  have hp : st.budget.total + 1 + 1 ≤ st.budget.limit := by omega
  have hfr : ({ st with
      budget := ⟨st.budget.limit, st.budget.total + 1 + 1⟩,
      context := st.context ++ [f] } : Host) = framedState st f := by
    have harith : st.budget.total + 1 + 1 = st.budget.total + 2 := by omega
    rw [harith]
    rfl
  unfold withFrame pushFrame popFrame chargeBudget
  dsimp only
  rw [if_pos hg]
  dsimp only
  rw [if_pos hp]
  dsimp only
  rw [hfr]
  cases hbody : body (framedState st f) with
  | mk r st3 =>
    cases r with
    | ok a =>
      dsimp only
      by_cases hc : st3.budget.total + 1 ≤ st3.budget.limit
      · simp only [hc, if_true]
      · simp only [hc, if_false]
    | error e =>
      dsimp only
      by_cases hc : st3.budget.total + 1 ≤ st3.budget.limit
      · simp only [hc, if_true, framedState]
      · simp only [hc, if_false]

theorem withFrame_guard_fail {α : Type} (f : Frame) (body : HostM α) (st : Host)
    (h : ¬ st.budget.total + 1 ≤ st.budget.limit) :
    withFrame f body st = (.error budgetError, bumpB st 1) := by
  unfold withFrame chargeBudget
  dsimp only
  rw [if_neg h]
  rfl

theorem withFrame_push_fail {α : Type} (f : Frame) (body : HostM α) (st : Host)
    (h1 : st.budget.total + 1 ≤ st.budget.limit)
    (h : ¬ st.budget.total + 2 ≤ st.budget.limit) :
    withFrame f body st = (.error budgetError, bumpB st 2) := by
  unfold withFrame pushFrame chargeBudget
  dsimp only
  rw [if_pos h1]
  dsimp only
  rw [if_neg (by omega : ¬ st.budget.total + 1 + 1 ≤ st.budget.limit)]
  dsimp only
  unfold bumpB
  have harith : st.budget.total + 1 + 1 = st.budget.total + 2 := by omega
  rw [harith]

/-- C3 (amended): whenever `with_frame` returns and its `PopFrame` budget
charge did not fail, the frame stack depth equals the depth on entry; when
that pop charge fails (the only other way `with_frame` can return, given a
body that preserves the frame stack), `with_frame` returns the budget
error and the pushed frame is still on the stack. -/
theorem c3_with_frame_depth {α : Type} (f : Frame) (body : HostM α) (st : Host)
    (hbal : ∀ s, (body s).2.context = s.context) :
    (withFrame f body st).2.context = st.context ∨
      ((withFrame f body st).1 = .error budgetError ∧
        (withFrame f body st).2.context = st.context ++ [f]) := by
  by_cases h2 : st.budget.total + 2 ≤ st.budget.limit
  · rw [withFrame_run f body st h2]
    have hctx : (body (framedState st f)).2.context = st.context ++ [f] := by
      rw [hbal (framedState st f)]
      rfl
    cases hbody : body (framedState st f) with
    | mk r st3 =>
      rw [hbody] at hctx
      cases r with
      | ok a =>
        replace hctx : st3.context = st.context ++ [f] := hctx
        dsimp only
        by_cases hc : st3.budget.total + 1 ≤ st3.budget.limit
        · left
          simp [hc, hctx, List.dropLast_concat]
        · right
          simp [hc, hctx]
      | error e =>
        replace hctx : st3.context = st.context ++ [f] := hctx
        dsimp only
        by_cases hc : st3.budget.total + 1 ≤ st3.budget.limit
        · left
          simp [hc, hctx, List.dropLast_concat]
        · right
          simp [hc, hctx]
  · by_cases h1 : st.budget.total + 1 ≤ st.budget.limit
    · rw [withFrame_push_fail f body st h1 h2]
      left
      rfl
    · rw [withFrame_guard_fail f body st h1]
      left
      rfl

def demoFrame : Frame := .tokenFrame [7]

def demoErr : HostError := errGeneral "boom"

def demoBodyFail : HostM Unit := throwH demoErr

def demoHostC3 : Host :=
  { objects := [], storage := ⟨[], []⟩, context := [], budget := ⟨2, 0⟩, events := [] }

/-- C3 counterexample: with a budget that admits the `GuardFrame` and
`PushFrame` charges but not the `PopFrame` charge, a failing body makes
`with_frame` return with the frame still pushed: the depth after the call
differs from the depth before it. -/
theorem c3_counterexample :
    (withFrame demoFrame demoBodyFail demoHostC3).2.context.length ≠
      demoHostC3.context.length := by
  decide

def demoHostW : Host :=
  { objects := [], storage := ⟨[], []⟩, context := [], budget := ⟨100, 0⟩, events := [] }

/-- C3 witness: on an amply budgeted host the depth is preserved. -/
theorem c3_witness :
    (withFrame demoFrame demoBodyFail demoHostW).2.context = demoHostW.context ∨
      ((withFrame demoFrame demoBodyFail demoHostW).1 = .error budgetError ∧
        (withFrame demoFrame demoBodyFail demoHostW).2.context =
          demoHostW.context ++ [demoFrame]) :=
  c3_with_frame_depth demoFrame demoBodyFail demoHostW (fun _ => rfl)

/-- C1 (amended): for a body run from the pushed state, a successful body
keeps every storage write and object added (`with_frame` never rolls back
on success, even when the pop charge then fails), and a failing body is
rolled back to the rollback point — the object table truncated to the
snapshot length and the storage overlay map replaced by the snapshot —
provided the `PopFrame` budget charge succeeds; when that charge fails the
source returns early from `pop_frame` and no rollback happens. -/
theorem c1_with_frame_rollback {α : Type} (f : Frame) (body : HostM α) (st : Host)
    (h2 : st.budget.total + 2 ≤ st.budget.limit) :
    (∀ a st3, body (framedState st f) = (.ok a, st3) →
      ((withFrame f body st).2.objects = st3.objects ∧
       (withFrame f body st).2.storage.map = st3.storage.map)) ∧
    (∀ e st3, body (framedState st f) = (.error e, st3) →
      st3.budget.total + 1 ≤ st3.budget.limit →
      st.objects.length ≤ st3.objects.length →
      ((withFrame f body st).1 = .error e ∧
       (withFrame f body st).2.objects.length = st.objects.length ∧
       (withFrame f body st).2.storage.map = st.storage.map)) := by
  rw [withFrame_run f body st h2]
  constructor
  · intro a st3 hbody
    rw [hbody]
    dsimp only
    by_cases hc : st3.budget.total + 1 ≤ st3.budget.limit
    · simp [hc]
    · simp [hc]
  · intro e st3 hbody hpop hmono
    rw [hbody]
    dsimp only
    rw [if_pos hpop]
    refine ⟨rfl, ?_, rfl⟩
    dsimp only
    rw [List.length_take]
    omega

def demoKey : LedgerKey := .contractData [7] (.u32S 1)

def demoEntry : LedgerEntry := ⟨0, .contractDataE [7] (.u32S 1) (.u32S 2)⟩

/-- A body that adds one object and one storage write, then fails. -/
def demoBodyC1 : HostM Unit := fun s =>
  match addHostObject (.u64O 5) s with
  | (_, s2) => (.error demoErr, { s2 with storage := s2.storage.putEntry demoKey demoEntry })

def demoHostC1 : Host :=
  { objects := [], storage := ⟨[], []⟩, context := [], budget := ⟨4, 0⟩, events := [] }

/-- C1 counterexample: the body fails after writing, but the `PopFrame`
charge also fails (budget exhausted), so `with_frame` returns without
rolling back: the object-table length and the storage map differ from the
snapshot. -/
theorem c1_counterexample :
    (demoBodyC1 (framedState demoHostC1 demoFrame)).1 = Except.error demoErr ∧
    (withFrame demoFrame demoBodyC1 demoHostC1).2.objects.length ≠
      demoHostC1.objects.length ∧
    (withFrame demoFrame demoBodyC1 demoHostC1).2.storage.map ≠
      demoHostC1.storage.map := by
  refine ⟨rfl, by decide, ?_⟩
  intro h
  have hlen : (withFrame demoFrame demoBodyC1 demoHostC1).2.storage.map.length = 1 := rfl
  rw [h] at hlen
  exact absurd hlen (by decide)

def demoHostC1W : Host :=
  { objects := [], storage := ⟨[], []⟩, context := [], budget := ⟨100, 0⟩, events := [] }

/-- C1 witness: with ample budget the failing body is rolled back. -/
theorem c1_witness :
    (withFrame demoFrame demoBodyC1 demoHostC1W).1 = Except.error demoErr ∧
    (withFrame demoFrame demoBodyC1 demoHostC1W).2.objects.length =
      demoHostC1W.objects.length ∧
    (withFrame demoFrame demoBodyC1 demoHostC1W).2.storage.map =
      demoHostC1W.storage.map :=
  (c1_with_frame_rollback demoFrame demoBodyC1 demoHostC1W (by decide)).2
    demoErr ((demoBodyC1 (framedState demoHostC1W demoFrame)).2) rfl
    (by decide) (by decide)

theorem recordDebugEvent_run (de : DebugEvent) (st : Host) :
    recordDebugEvent de st =
      ((if st.budget.total + de.args.length ≤ st.budget.limit
        then Except.ok () else Except.error budgetError),
       { st with
         events := st.events ++ [HostEvent.debugE de],
         budget := ⟨st.budget.limit, st.budget.total + de.args.length⟩ }) := by
  unfold recordDebugEvent chargeBudget
  dsimp only
  split
  · rfl
  · rfl

/-- C4: `record_debug_event` appends the debug event to the log first and
only then charges `HostEventDebug` with the argument count returned by the
append; the event is in the log in the final state whether or not the
charge succeeds, and the call returns an error exactly when the charge
fails. -/
theorem c4_record_debug_event (de : DebugEvent) (st : Host) :
    recordDebugEvent de st =
      ((if st.budget.total + de.args.length ≤ st.budget.limit
        then Except.ok () else Except.error budgetError),
       { st with
         events := st.events ++ [HostEvent.debugE de],
         budget := ⟨st.budget.limit, st.budget.total + de.args.length⟩ }) :=
  recordDebugEvent_run de st

/-- C5: a visited object reference whose index is not below the object
table length fails with `UnknownReference`; an index in range whose stored
variant the expected type cannot extract fails with `UnexpectedType` —
both for the generic `visit_obj` and for `obj_to_u64` in particular. -/
theorem c5_visit_obj {β α : Type} (ext : HostObject → Option β) (o : ObjRef)
    (f : β → HostM α) (st : Host)
    (hb : st.budget.total + 1 ≤ st.budget.limit) :
    (st.objects.length ≤ o.handle →
      visitObjWith ext o f st = (.error (errStatus .objUnknownReference), bumpB st 1)) ∧
    (∀ ho, st.objects[o.handle]? = some ho → ext ho = none →
      visitObjWith ext o f st = (.error (errStatus .objUnexpectedType), bumpB st 1)) ∧
    (st.objects.length ≤ o.handle →
      objToU64 o st = (.error (errStatus .objUnknownReference), bumpB st 1)) ∧
    (∀ ho, st.objects[o.handle]? = some ho → extractU64 ho = none →
      objToU64 o st = (.error (errStatus .objUnexpectedType), bumpB st 1)) := by
  have hrun : ∀ {γ : Type} (g : Option HostObject → HostM γ),
      uncheckedVisitValObj o.handle g st = g ((bumpB st 1).objects[o.handle]?) (bumpB st 1) := by
    intro γ g
    unfold uncheckedVisitValObj
    rw [chargeBudget_ok _ _ _ hb]
  refine ⟨?_, ?_, ?_, ?_⟩
  · intro hlen
    unfold visitObjWith
    rw [hrun]
    rw [List.getElem?_eq_none (by simpa [bumpB] using hlen)]
    rfl
  · intro ho hsome hext
    unfold visitObjWith
    rw [hrun]
    have hsome2 : (bumpB st 1).objects[o.handle]? = some ho := by
      simpa [bumpB] using hsome
    rw [hsome2]
    dsimp only
    rw [hext]
    rfl
  · intro hlen
    unfold objToU64 visitObjWith
    rw [hrun]
    rw [List.getElem?_eq_none (by simpa [bumpB] using hlen)]
    rfl
  · intro ho hsome hext
    unfold objToU64 visitObjWith
    rw [hrun]
    have hsome2 : (bumpB st 1).objects[o.handle]? = some ho := by
      simpa [bumpB] using hsome
    rw [hsome2]
    dsimp only
    rw [hext]
    rfl

def demoHostC5 : Host :=
  { objects := [.u64O 3], storage := ⟨[], []⟩, context := [], budget := ⟨100, 0⟩,
    events := [] }

def demoHostC5B : Host :=
  { objects := [.binO [1, 2]], storage := ⟨[], []⟩, context := [], budget := ⟨100, 0⟩,
    events := [] }

/-- C5 witness: an out-of-range handle gives `UnknownReference`; a handle
onto a `Bin` object given to `obj_to_u64` gives `UnexpectedType`. -/
theorem c5_witness :
    objToU64 ⟨ObjType.u64T, 5⟩ demoHostC5 =
      (.error (errStatus .objUnknownReference), bumpB demoHostC5 1) ∧
    objToU64 ⟨ObjType.u64T, 0⟩ demoHostC5B =
      (.error (errStatus .objUnexpectedType), bumpB demoHostC5B 1) := by
  refine ⟨?_, ?_⟩
  · exact (c5_visit_obj extractU64 ⟨ObjType.u64T, 5⟩ (fun u => pure u) demoHostC5
      (by decide)).2.2.1 (by decide)
  · exact (c5_visit_obj extractU64 ⟨ObjType.u64T, 0⟩ (fun u => pure u) demoHostC5B
      (by decide)).2.2.2 (.binO [1, 2]) (by decide) (by decide)

@[simp]
theorem bumpB_objects (st : Host) (n : Nat) : (bumpB st n).objects = st.objects := rfl

@[simp]
theorem bumpB_storage (st : Host) (n : Nat) : (bumpB st n).storage = st.storage := rfl

@[simp]
theorem bumpB_context (st : Host) (n : Nat) : (bumpB st n).context = st.context := rfl

@[simp]
theorem bumpB_events (st : Host) (n : Nat) : (bumpB st n).events = st.events := rfl

theorem bumpB_bumpB (st : Host) (m n : Nat) : bumpB (bumpB st m) n = bumpB st (m + n) := by
  unfold bumpB
  have : st.budget.total + m + n = st.budget.total + (m + n) := by omega
  rw [this]

theorem uncheckedVisit_run {γ : Type} (h : Nat) (g : Option HostObject → HostM γ)
    (st : Host) (hb : st.budget.total + 1 ≤ st.budget.limit) :
    uncheckedVisitValObj h g st = g st.objects[h]? (bumpB st 1) := by
  unfold uncheckedVisitValObj
  rw [chargeBudget_ok _ _ _ hb]
  rfl

theorem visitObjWith_ok {β γ : Type} (ext : HostObject → Option β) (o : ObjRef)
    (f : β → HostM γ) (st : Host) (hb : st.budget.total + 1 ≤ st.budget.limit)
    (ho : HostObject) (b : β) (hsome : st.objects[o.handle]? = some ho)
    (hext : ext ho = some b) :
    visitObjWith ext o f st = f b (bumpB st 1) := by
  unfold visitObjWith
  rw [uncheckedVisit_run _ _ _ hb, hsome]
  dsimp only
  rw [hext]

/-- `MeteredBigInt::div`. Modelled from the spec: `metered_bigint.rs` is
not among the sources; one `bigIntOp` charge, then truncated integer
division as `num_bigint` performs it. The caller has already refused a
zero divisor. -/
def meteredBigIntDiv (a b : Int) : HostM Int := fun st =>
  match chargeBudget .bigIntOp 1 st with
  | (.ok _, st2) => (.ok (a.tdiv b), st2)
  | (.error e, st2) => (.error e, st2)

/-- `MeteredBigInt::rem`, modelled like `meteredBigIntDiv`. -/
def meteredBigIntRem (a b : Int) : HostM Int := fun st =>
  match chargeBudget .bigIntOp 1 st with
  | (.ok _, st2) => (.ok (a.tmod b), st2)
  | (.error e, st2) => (.error e, st2)

/-- `CheckedEnv::bigint_div` (`host.rs` lines 1453-1463): visit both
operands, fail with the general error "bigint division by zero" on a zero
divisor, otherwise divide and add the result object. -/
def bigintDiv (x y : ObjRef) : HostM ObjRef :=
  visitObjWith extractBigInt x (fun a =>
    visitObjWith extractBigInt y (fun b =>
      if b = 0 then throwH (errGeneral "bigint division by zero")
      else meteredBigIntDiv a b)) >>= fun res => addHostObject (.bigintO res)

/-- `CheckedEnv::bigint_rem` (`host.rs` lines 1465-1475). -/
def bigintRem (x y : ObjRef) : HostM ObjRef :=
  visitObjWith extractBigInt x (fun a =>
    visitObjWith extractBigInt y (fun b =>
      if b = 0 then throwH (errGeneral "bigint division by zero")
      else meteredBigIntRem a b)) >>= fun res => addHostObject (.bigintO res)

/-- C9: with a zero divisor object, `bigint_div` and `bigint_rem` fail
with the general error "bigint division by zero" and leave the object
table unchanged — no result object is added. -/
theorem c9_bigint_div_rem_zero (x y : ObjRef) (st : Host) (a : Int)
    (hx : st.objects[x.handle]? = some (.bigintO a))
    (hy : st.objects[y.handle]? = some (.bigintO 0))
    (hbud : st.budget.total + 2 ≤ st.budget.limit) :
    bigintDiv x y st = (.error (errGeneral "bigint division by zero"), bumpB st 2) ∧
    bigintRem x y st = (.error (errGeneral "bigint division by zero"), bumpB st 2) ∧
    (bigintDiv x y st).2.objects = st.objects ∧
    (bigintRem x y st).2.objects = st.objects := by
  have hinner : ∀ innerOp : Int → Int → HostM Int,
      visitObjWith extractBigInt x (fun av =>
        visitObjWith extractBigInt y (fun bv =>
          if bv = 0 then throwH (errGeneral "bigint division by zero")
          else innerOp av bv)) st =
      (.error (errGeneral "bigint division by zero"), bumpB st 2) := by
    intro innerOp
    rw [visitObjWith_ok extractBigInt x _ st (by omega) (.bigintO a) a hx rfl]
    rw [visitObjWith_ok extractBigInt y _ (bumpB st 1) (by simp [bumpB]; omega)
      (.bigintO 0) 0 (by simpa using hy) rfl]
    rw [if_pos rfl]
    rw [throwH_apply, bumpB_bumpB]
  have hdiv : bigintDiv x y st = (.error (errGeneral "bigint division by zero"), bumpB st 2) := by
    unfold bigintDiv
    rw [bind_apply, hinner meteredBigIntDiv]
  have hrem : bigintRem x y st = (.error (errGeneral "bigint division by zero"), bumpB st 2) := by
    unfold bigintRem
    rw [bind_apply, hinner meteredBigIntRem]
  refine ⟨hdiv, hrem, ?_, ?_⟩
  · rw [hdiv]
    rfl
  · rw [hrem]
    rfl

def demoHostC9 : Host :=
  { objects := [.bigintO 10, .bigintO 0], storage := ⟨[], []⟩, context := [],
    budget := ⟨100, 0⟩, events := [] }

/-- C9 witness: dividing the BigInt 10 by the BigInt 0 fails with the
division-by-zero error and adds no object. -/
theorem c9_witness :
    bigintDiv ⟨ObjType.bigintT, 0⟩ ⟨ObjType.bigintT, 1⟩ demoHostC9 =
      (.error (errGeneral "bigint division by zero"), bumpB demoHostC9 2) ∧
    (bigintRem ⟨ObjType.bigintT, 0⟩ ⟨ObjType.bigintT, 1⟩ demoHostC9).2.objects =
      demoHostC9.objects := by
  have h := c9_bigint_div_rem_zero ⟨ObjType.bigintT, 0⟩ ⟨ObjType.bigintT, 1⟩
    demoHostC9 10 (by decide) (by decide) (by decide)
  exact ⟨h.1, h.2.2.2⟩

theorem ordToInt_cases (o : Ordering) :
    ordToInt o = -1 ∨ ordToInt o = 0 ∨ ordToInt o = 1 := by
  cases o <;> simp [ordToInt]

theorem ordToInt_swap (o : Ordering) : ordToInt o.swap = -ordToInt o := by
  cases o <;> rfl

theorem ordToInt_nonpos_iff (o : Ordering) : ordToInt o ≤ 0 ↔ o ≠ .gt := by
  cases o <;> simp [ordToInt]

@[simp]
theorem rawHandleBits_objectV (t : ObjType) (h : Nat) :
    rawHandleBits (.objectV t h) = h := rfl

theorem objCmp_run (a b : RawVal) (st : Host)
    (hbud : st.budget.total + 2 ≤ st.budget.limit) :
    objCmp a b st =
      (.ok (ordToInt (optCmp HostObject.cmp
          st.objects[rawHandleBits a]? st.objects[rawHandleBits b]?)),
       bumpB st 2) := by
  unfold objCmp
  rw [uncheckedVisit_run _ _ _ (by omega)]
  rw [uncheckedVisit_run _ _ _ (by simp [bumpB]; omega)]
  rw [bumpB_objects, bumpB_bumpB, pure_apply]

/-- C6: for object-tagged RawVals with in-table handles, `obj_cmp` returns
an integer in {-1, 0, 1} and induces a total order: comparing a value with
itself gives 0, swapping the arguments negates the result, and the
non-positive relation is transitive. -/
theorem c6_obj_cmp (st : Host) (ta tb tc : ObjType) (ha hb hc : Nat)
    (hla : ha < st.objects.length) (hlb : hb < st.objects.length)
    (hlc : hc < st.objects.length)
    (hbud : st.budget.total + 2 ≤ st.budget.limit) :
    (∃ r : Int, objCmp (.objectV ta ha) (.objectV tb hb) st = (.ok r, bumpB st 2) ∧
      (r = -1 ∨ r = 0 ∨ r = 1)) ∧
    objCmp (.objectV ta ha) (.objectV ta ha) st = (.ok 0, bumpB st 2) ∧
    (∀ r : Int, objCmp (.objectV ta ha) (.objectV tb hb) st = (.ok r, bumpB st 2) →
      objCmp (.objectV tb hb) (.objectV ta ha) st = (.ok (-r), bumpB st 2)) ∧
    (∀ r s : Int,
      objCmp (.objectV ta ha) (.objectV tb hb) st = (.ok r, bumpB st 2) → r ≤ 0 →
      objCmp (.objectV tb hb) (.objectV tc hc) st = (.ok s, bumpB st 2) → s ≤ 0 →
      ∃ t : Int, objCmp (.objectV ta ha) (.objectV tc hc) st = (.ok t, bumpB st 2) ∧
        t ≤ 0) := by
  have hprops : CmpProps (optCmp HostObject.cmp) := optCmp_props hostObjCmp_props
  have hrun : ∀ (tu tv : ObjType) (u v : Nat),
      objCmp (.objectV tu u) (.objectV tv v) st =
      (.ok (ordToInt (optCmp HostObject.cmp st.objects[u]? st.objects[v]?)), bumpB st 2) := by
    intro tu tv u v
    rw [objCmp_run _ _ st hbud]
    simp only [rawHandleBits_objectV]
  refine ⟨?_, ?_, ?_, ?_⟩
  · exact ⟨_, hrun ta tb ha hb, ordToInt_cases _⟩
  · rw [hrun ta ta ha ha]
    rw [hprops.refl st.objects[ha]?]
    rfl
  · intro r h1
    rw [hrun ta tb ha hb] at h1
    have hr : r = ordToInt (optCmp HostObject.cmp st.objects[ha]? st.objects[hb]?) := by
      have := congrArg Prod.fst h1
      simpa using this.symm
    rw [hrun tb ta hb ha, hr]
    rw [← hprops.swapEq st.objects[ha]? st.objects[hb]?, ordToInt_swap]
  · intro r s h1 hr0 h2 hs0
    rw [hrun ta tb ha hb] at h1
    rw [hrun tb tc hb hc] at h2
    have hr : r = ordToInt (optCmp HostObject.cmp st.objects[ha]? st.objects[hb]?) := by
      have := congrArg Prod.fst h1
      simpa using this.symm
    have hs : s = ordToInt (optCmp HostObject.cmp st.objects[hb]? st.objects[hc]?) := by
      have := congrArg Prod.fst h2
      simpa using this.symm
    refine ⟨_, hrun ta tc ha hc, ?_⟩
    rw [ordToInt_nonpos_iff]
    refine hprops.leTrans _ st.objects[hb]? _ ?_ ?_
    · rw [← ordToInt_nonpos_iff]
      rw [hr] at hr0
      exact hr0
    · rw [← ordToInt_nonpos_iff]
      rw [hs] at hs0
      exact hs0

def demoHostC6 : Host :=
  { objects := [.u64O 1, .u64O 2, .vecO [.u32V 5]], storage := ⟨[], []⟩,
    context := [], budget := ⟨100, 0⟩, events := [] }

/-- C6 witness: on a table with three objects, comparing an object with
itself yields 0. -/
theorem c6_witness :
    objCmp (.objectV ObjType.u64T 0) (.objectV ObjType.u64T 0) demoHostC6 =
      (.ok 0, bumpB demoHostC6 2) :=
  (c6_obj_cmp demoHostC6 ObjType.u64T ObjType.u64T ObjType.u64T 0 1 2
    (by decide) (by decide) (by decide) (by decide)).2.1

theorem cmpProps_flip {α : Type} {c : α → α → Ordering} (h : CmpProps c) :
    CmpProps (fun a b => c b a) :=
  ⟨fun a => h.refl a, fun a b => h.swapEq b a, fun a b d h1 h2 => h.leTrans d b a h2 h1⟩

/-- The key of the best entry — the greatest with respect to `c` — whose
key satisfies `p`, scanning an entry list; the primitive underlying the
modelled `OrdMap` neighbour lookups (`im_rc` is outside the sources).
Instantiated at `c` and at the flipped `c` it yields the greatest and the
least matching key. -/
def bestKeyBy {α : Type} (c : α → α → Ordering) (p : α → Bool) :
    List (α × α) → Option α
  | [] => none
  | e :: rest =>
    match bestKeyBy c p rest with
    | none => if p e.1 then some e.1 else none
    | some a => if p e.1 ∧ c a e.1 = .lt then some e.1 else some a

theorem bestKeyBy_eq_none_iff {α : Type} (c : α → α → Ordering) (p : α → Bool)
    (es : List (α × α)) :
    bestKeyBy c p es = none ↔ ∀ e ∈ es, p e.1 = false := by
  induction es with
  | nil => simp [bestKeyBy]
  | cons e rest ih =>
    cases hr : bestKeyBy c p rest with
    | none =>
      rw [hr] at ih
      simp only [bestKeyBy, hr]
      split
      · simp_all
      · simp_all
        exact ih
    | some a =>
      have hrest : ¬ ∀ x ∈ rest, p x.1 = false := by
        intro hall
        rw [← ih] at hall
        rw [hall] at hr
        cases hr
      simp only [bestKeyBy, hr]
      split
      · simp_all
      · constructor
        · intro hc2
          cases hc2
        · intro hall
          exfalso
          exact hrest (fun x hx => hall x (List.mem_cons_of_mem e hx))

theorem bestKeyBy_mem {α : Type} (c : α → α → Ordering) (p : α → Bool)
    (es : List (α × α)) (r : α) (h : bestKeyBy c p es = some r) :
    p r = true ∧ ∃ v, (r, v) ∈ es := by
  induction es generalizing r with
  | nil => cases h
  | cons e rest ih =>
    cases hr : bestKeyBy c p rest with
    | none =>
      rw [bestKeyBy, hr] at h
      dsimp only at h
      split at h
      · cases h
        refine ⟨by assumption, e.2, List.mem_cons_self e rest⟩
      · cases h
    | some a =>
      rw [bestKeyBy, hr] at h
      dsimp only at h
      split at h
      · rename_i hcond
        cases h
        exact ⟨hcond.1, e.2, List.mem_cons_self e rest⟩
      · cases h
        obtain ⟨hp, v, hv⟩ := ih _ hr
        exact ⟨hp, v, List.mem_cons_of_mem e hv⟩

theorem bestKeyBy_dom {α : Type} (c : α → α → Ordering) (hc : CmpProps c)
    (p : α → Bool) (es : List (α × α)) (r : α)
    (h : bestKeyBy c p es = some r) :
    ∀ e ∈ es, p e.1 = true → c r e.1 ≠ .lt := by
  induction es generalizing r with
  | nil => cases h
  | cons e rest ih =>
    cases hr : bestKeyBy c p rest with
    | none =>
      rw [bestKeyBy, hr] at h
      dsimp only at h
      split at h
      · cases h
        intro x hx hpx
        cases hx with
        | head => simp [hc.refl]
        | tail _ hmem =>
          exfalso
          have hfalse := (bestKeyBy_eq_none_iff c p rest).mp hr x hmem
          rw [hpx] at hfalse
          cases hfalse
      · cases h
    | some a =>
      rw [bestKeyBy, hr] at h
      dsimp only at h
      split at h
      · rename_i hcond
        cases h
        intro x hx hpx
        cases hx with
        | head => simp [hc.refl]
        | tail _ hmem =>
          intro hlt
          exact ih a hr x hmem hpx (cmpProps_lt_trans hc hcond.2 hlt)
      · rename_i hcond
        cases h
        intro x hx hpx
        cases hx with
        | head =>
          intro hlt
          exact hcond ⟨hpx, hlt⟩
        | tail _ hmem => exact ih _ hr x hmem hpx

theorem bestKeyBy_filter {α : Type} (c : α → α → Ordering) (p q : α → Bool)
    (es : List (α × α)) :
    bestKeyBy c p (es.filter (fun e => q e.1)) =
      bestKeyBy c (fun x => q x && p x) es := by
  induction es with
  | nil => rfl
  | cons e rest ih =>
    rw [List.filter_cons]
    cases hq : q e.1 with
    | false =>
      simp only [hq, Bool.false_eq_true, if_false]
      rw [ih]
      simp only [bestKeyBy]
      cases hb : bestKeyBy c (fun x => q x && p x) rest with
      | none => simp [hq]
      | some a => simp [hq]
    | true =>
      simp only [hq, if_true]
      simp only [bestKeyBy]
      rw [ih]
      cases hb : bestKeyBy c (fun x => q x && p x) rest with
      | none => simp [hq]
      | some a => simp [hq]

theorem bestKeyBy_unique {α : Type} (c : α → α → Ordering) (hc : CmpProps c)
    (heq : ∀ a b, c a b = .eq ↔ a = b) (p : α → Bool)
    (es : List (α × α)) (r1 r2 : α)
    (hin : ∃ v, (r1, v) ∈ es) (hp1 : p r1 = true)
    (hdom1 : ∀ e ∈ es, p e.1 = true → c r1 e.1 ≠ .lt)
    (h2 : bestKeyBy c p es = some r2) : r1 = r2 := by
  obtain ⟨v, hv⟩ := hin
  obtain ⟨hp2, w, hw⟩ := bestKeyBy_mem c p es r2 h2
  have h21 : c r2 r1 ≠ .lt := bestKeyBy_dom c hc p es r2 h2 (r1, v) hv hp1
  have h12 : c r1 r2 ≠ .lt := hdom1 (r2, w) hw hp2
  have hfin : c r1 r2 = .eq := by
    cases h12eq : c r1 r2 with
    | lt => exact absurd h12eq h12
    | eq => rfl
    | gt => exact absurd ((cmpProps_gt_iff_lt hc r1 r2).mp h12eq) h21
  exact (heq r1 r2).mp hfin

theorem bestDecision_eq {α : Type} [DecidableEq α] (c : α → α → Ordering)
    (hc : CmpProps c) (heq : ∀ a b, c a b = .eq ↔ a = b)
    (es : List (α × α)) (k : α) :
    (match bestKeyBy c (fun x => !decide (c x k = .gt)) es with
     | some pk =>
       if pk ≠ k then some pk
       else bestKeyBy c (fun x => !decide (c x k = .gt))
         (es.filter (fun e => !decide (e.1 = k)))
     | none => none)
    = bestKeyBy c (fun x => decide (c x k = .lt)) es := by
  cases hb : bestKeyBy c (fun x => !decide (c x k = .gt)) es with
  | none =>
    dsimp only
    symm
    rw [bestKeyBy_eq_none_iff]
    intro e he
    have hgt := (bestKeyBy_eq_none_iff _ _ _).mp hb e he
    simp only [Bool.not_eq_false', decide_eq_true_eq] at hgt
    simp [hgt]
  | some pk =>
    dsimp only
    by_cases hpk : pk = k
    · rw [if_neg (by simp [hpk])]
      rw [bestKeyBy_filter c (fun x => !decide (c x k = .gt)) (fun x => !decide (x = k)) es]
      have hpred : (fun x => (!decide (x = k)) && !decide (c x k = .gt)) =
          (fun x => decide (c x k = .lt)) := by
        funext x
        cases hcx : c x k with
        | lt =>
          have hne : x ≠ k := by
            intro hx
            rw [hx, hc.refl] at hcx
            cases hcx
          simp [hcx, hne]
        | eq =>
          have hx : x = k := (heq x k).mp hcx
          simp [hcx, hx]
        | gt =>
          simp [hcx]
      rw [hpred]
    · rw [if_pos hpk]
      obtain ⟨hp, v, hv⟩ := bestKeyBy_mem _ _ _ _ hb
      have hdom := bestKeyBy_dom c hc _ es pk hb
      have hlt : c pk k = .lt := by
        have hng : ¬ c pk k = .gt := by simpa using hp
        cases hck : c pk k with
        | lt => rfl
        | eq => exact absurd ((heq pk k).mp hck) hpk
        | gt => exact absurd hck hng
      cases hb2 : bestKeyBy c (fun x => decide (c x k = .lt)) es with
      | none =>
        exfalso
        have := (bestKeyBy_eq_none_iff _ _ _).mp hb2 (pk, v) hv
        simp [hlt] at this
      | some r =>
        have huniq := bestKeyBy_unique c hc heq _ es pk r ⟨v, hv⟩ (by simp [hlt])
          ?_ hb2
        · rw [huniq]
        · intro e he hpe
          refine hdom e he ?_
          simp only [decide_eq_true_eq] at hpe
          simp [hpe]

/-- Flipped RawVal comparison: the greatest element with respect to it is
the least with respect to `RawVal.cmp`. -/
def rawCmpFlip (a b : RawVal) : Ordering := RawVal.cmp b a

theorem rawCmpFlip_props : CmpProps rawCmpFlip := cmpProps_flip rawCmp_props

theorem rawCmpFlip_eq_iff (a b : RawVal) : rawCmpFlip a b = .eq ↔ a = b := by
  rw [rawCmpFlip, rawCmp_eq_iff]
  exact eq_comm

/-- One neighbour lookup of `MeteredOrdMap` (`get_prev` at `RawVal.cmp`,
`get_next` at the flipped comparison), key part. Modelled from the spec
and the source comment on `map_prev_key`: the entry with the greatest key
(with respect to `c`) not above the probe — the probe itself when present
— after one metered charge with the map size (`metered_map.rs` and
`im_rc` are outside the sources). -/
def mmGetBy (c : RawVal → RawVal → Ordering) (es : List (RawVal × RawVal))
    (k : RawVal) : HostM (Option RawVal) := fun st =>
  match chargeBudget .hostMapOp es.length st with
  | (.ok _, st2) =>
    (.ok (bestKeyBy c (fun x => !decide (c x k = .gt)) es), st2)
  | (.error e, st2) => (.error e, st2)

/-- `MeteredOrdMap::get_prev`, key part. -/
def mmGetPrev (es : List (RawVal × RawVal)) (k : RawVal) : HostM (Option RawVal) :=
  mmGetBy RawVal.cmp es k

/-- `MeteredOrdMap::get_next`, key part. -/
def mmGetNext (es : List (RawVal × RawVal)) (k : RawVal) : HostM (Option RawVal) :=
  mmGetBy rawCmpFlip es k

/-- `MeteredOrdMap::get_min`, key part. -/
def mmGetMin (es : List (RawVal × RawVal)) : HostM (Option RawVal) := fun st =>
  match chargeBudget .hostMapOp es.length st with
  | (.ok _, st2) => (.ok (bestKeyBy rawCmpFlip (fun _ => true) es), st2)
  | (.error e, st2) => (.error e, st2)

/-- `MeteredOrdMap::get_max`, key part. -/
def mmGetMax (es : List (RawVal × RawVal)) : HostM (Option RawVal) := fun st =>
  match chargeBudget .hostMapOp es.length st with
  | (.ok _, st2) => (.ok (bestKeyBy RawVal.cmp (fun _ => true) es), st2)
  | (.error e, st2) => (.error e, st2)

/-- `metered_clone` of a map: one unit (structural sharing). -/
def mmClone (es : List (RawVal × RawVal)) : HostM (List (RawVal × RawVal)) :=
  fun st =>
  match chargeBudget .hostMapOp 1 st with
  | (.ok _, st2) => (.ok es, st2)
  | (.error e, st2) => (.error e, st2)

/-- `MeteredOrdMap::extract`, map part: remove the key and return the
remaining map, `none` when the key is absent. -/
def mmExtract (es : List (RawVal × RawVal)) (k : RawVal) :
    HostM (Option (List (RawVal × RawVal))) := fun st =>
  match chargeBudget .hostMapOp es.length st with
  | (.ok _, st2) =>
    (.ok (if es.any (fun e => decide (e.1 = k))
          then some (es.filter (fun e => !decide (e.1 = k))) else none), st2)
  | (.error e, st2) => (.error e, st2)

/-- The closure body shared by `map_prev_key` and `map_next_key` (the two
sources are textually identical up to the neighbour getter): look up the
neighbour; a key different from the probe is returned directly; the probe
itself is extracted from a clone and the lookup retried; a missing
neighbour returns the `UNKNOWN_ERROR` status as a RawVal (an `Ok`
result). -/
def neighborKeyBody (c : RawVal → RawVal → Ordering)
    (hm : List (RawVal × RawVal)) (k : RawVal) : HostM RawVal :=
  mmGetBy c hm k >>= fun po =>
    match po with
    | some pk =>
      if pk ≠ k then pure pk
      else
        mmClone hm >>= fun hm2 =>
        mmExtract hm2 pk >>= fun mo =>
          match mo with
          | none => throwH (errGeneral "key not exist")
          | some hm3 =>
            mmGetBy c hm3 pk >>= fun po2 =>
              match po2 with
              | some pk2 => pure pk2
              | none => pure Status.unknownGeneral.toRaw
    | none => pure Status.unknownGeneral.toRaw

/-- `CheckedEnv::map_prev_key` (`host.rs` lines 1040-1069). -/
def mapPrevKey (m : ObjRef) (k : RawVal) : HostM RawVal :=
  visitObjWith extractMap m (fun hm => neighborKeyBody RawVal.cmp hm k)

/-- `CheckedEnv::map_next_key` (`host.rs` lines 1071-1094), symmetric. -/
def mapNextKey (m : ObjRef) (k : RawVal) : HostM RawVal :=
  visitObjWith extractMap m (fun hm => neighborKeyBody rawCmpFlip hm k)

/-- `CheckedEnv::map_min_key` (`host.rs` lines 1096-1103). -/
def mapMinKey (m : ObjRef) : HostM RawVal :=
  visitObjWith extractMap m (fun hm =>
    mmGetMin hm >>= fun po =>
      match po with
      | some pk => pure pk
      | none => pure Status.unknownGeneral.toRaw)

/-- `CheckedEnv::map_max_key` (`host.rs` lines 1105-1112). -/
def mapMaxKey (m : ObjRef) : HostM RawVal :=
  visitObjWith extractMap m (fun hm =>
    mmGetMax hm >>= fun po =>
      match po with
      | some pk => pure pk
      | none => pure Status.unknownGeneral.toRaw)

/-- The specification's words for `map_prev_key`: the greatest key of the
map strictly less than the probe. -/
def greatestKeyBelow (es : List (RawVal × RawVal)) (k : RawVal) : Option RawVal :=
  bestKeyBy RawVal.cmp (fun x => decide (RawVal.cmp x k = .lt)) es

/-- The specification's words for `map_next_key`: the least key of the map
strictly greater than the probe. -/
def leastKeyAbove (es : List (RawVal × RawVal)) (k : RawVal) : Option RawVal :=
  bestKeyBy rawCmpFlip (fun x => decide (rawCmpFlip x k = .lt)) es

/-- The least key of the map, which `map_min_key` reports. -/
def leastKey (es : List (RawVal × RawVal)) : Option RawVal :=
  bestKeyBy rawCmpFlip (fun _ => true) es

/-- The greatest key of the map, which `map_max_key` reports. -/
def greatestKey (es : List (RawVal × RawVal)) : Option RawVal :=
  bestKeyBy RawVal.cmp (fun _ => true) es
theorem neighborKeyBody_run (c : RawVal → RawVal → Ordering) (hc : CmpProps c)
    (heq : ∀ a b, c a b = .eq ↔ a = b) (es : List (RawVal × RawVal))
    (k : RawVal) (st : Host)
    (hbud : st.budget.total + 3 * es.length + 2 ≤ st.budget.limit) :
    (neighborKeyBody c es k st).1 =
      .ok (match bestKeyBy c (fun x => decide (c x k = .lt)) es with
           | some pk => pk
           | none => Status.unknownGeneral.toRaw) := by
  have hD := bestDecision_eq c hc heq es k
  unfold neighborKeyBody mmGetBy
  rw [bind_apply]
  rw [chargeBudget_ok _ _ st (by omega)]
  dsimp only
  cases hB : bestKeyBy c (fun x => !decide (c x k = .gt)) es with
  | none =>
    rw [hB] at hD
    dsimp only at hD
    dsimp only
    rw [← hD]
    rfl
  | some pk =>
    rw [hB] at hD
    dsimp only at hD
    dsimp only
    by_cases hpk : pk = k
    · rw [if_neg (by simp [hpk])]
      rw [if_neg (by simp [hpk])] at hD
      rw [bind_apply]
      unfold mmClone
      rw [chargeBudget_ok _ _ _ (by simp [bumpB]; omega)]
      dsimp only
      rw [bind_apply]
      unfold mmExtract
      rw [chargeBudget_ok _ _ _ (by simp [bumpB]; omega)]
      dsimp only
      obtain ⟨hppk, v, hv⟩ := bestKeyBy_mem _ _ _ _ hB
      have hany : es.any (fun e => decide (e.1 = pk)) = true := by
        rw [List.any_eq_true]
        exact ⟨(pk, v), hv, by simp⟩
      rw [if_pos ?side]
      case side =>
        subst hpk
        exact hany
      dsimp only
      rw [bind_apply]
      rw [chargeBudget_ok _ _ _ ?bud]
      case bud =>
        simp only [bumpB]
        have hle := List.length_filter_le (fun e => !decide (e.1 = pk)) es
        subst hpk
        omega
      dsimp only
      subst hpk
      rw [← hD]
      cases hB2 : bestKeyBy c (fun x => !decide (c x pk = .gt))
          (es.filter fun e => !decide (e.1 = pk)) with
      | none => rfl
      | some pk2 => rfl
    · rw [if_pos hpk]
      rw [if_pos hpk] at hD
      rw [← hD]
      rfl

/-- C7: `map_prev_key` returns the greatest key of the map strictly less
than the probe and `map_next_key` the least key strictly greater, as
RawVals in an `Ok` result; when no such key exists the returned RawVal is
the `UNKNOWN_ERROR` status. `map_min_key` and `map_max_key` return the
least and greatest key, with the same status value on an empty map. -/
theorem c7_map_neighbor_keys (m : ObjRef) (k : RawVal) (st : Host)
    (es : List (RawVal × RawVal))
    (hm : st.objects[m.handle]? = some (.mapO es))
    (hbud : st.budget.total + 3 * es.length + 3 ≤ st.budget.limit) :
    (mapPrevKey m k st).1 =
      .ok (match greatestKeyBelow es k with
           | some pk => pk
           | none => Status.unknownGeneral.toRaw) ∧
    (mapNextKey m k st).1 =
      .ok (match leastKeyAbove es k with
           | some pk => pk
           | none => Status.unknownGeneral.toRaw) ∧
    (mapMinKey m st).1 =
      .ok (match leastKey es with
           | some pk => pk
           | none => Status.unknownGeneral.toRaw) ∧
    (mapMaxKey m st).1 =
      .ok (match greatestKey es with
           | some pk => pk
           | none => Status.unknownGeneral.toRaw) := by
  refine ⟨?_, ?_, ?_, ?_⟩
  · unfold mapPrevKey
    rw [visitObjWith_ok extractMap m _ st (by omega) (.mapO es) es hm rfl]
    exact neighborKeyBody_run RawVal.cmp rawCmp_props rawCmp_eq_iff es k (bumpB st 1)
      (by simp [bumpB]; omega)
  · unfold mapNextKey
    rw [visitObjWith_ok extractMap m _ st (by omega) (.mapO es) es hm rfl]
    exact neighborKeyBody_run rawCmpFlip rawCmpFlip_props rawCmpFlip_eq_iff es k
      (bumpB st 1) (by simp [bumpB]; omega)
  · unfold mapMinKey
    rw [visitObjWith_ok extractMap m _ st (by omega) (.mapO es) es hm rfl]
    unfold mmGetMin
    rw [bind_apply]
    rw [chargeBudget_ok _ _ _ (by simp [bumpB]; omega)]
    dsimp only
    cases hB : bestKeyBy rawCmpFlip (fun _ => true) es with
    | none =>
      unfold leastKey
      rw [hB]
      rfl
    | some pk =>
      unfold leastKey
      rw [hB]
      rfl
  · unfold mapMaxKey
    rw [visitObjWith_ok extractMap m _ st (by omega) (.mapO es) es hm rfl]
    unfold mmGetMax
    rw [bind_apply]
    rw [chargeBudget_ok _ _ _ (by simp [bumpB]; omega)]
    dsimp only
    cases hB : bestKeyBy RawVal.cmp (fun _ => true) es with
    | none =>
      unfold greatestKey
      rw [hB]
      rfl
    | some pk =>
      unfold greatestKey
      rw [hB]
      rfl

def demoMapEntries : List (RawVal × RawVal) :=
  [(.u32V 1, .u32V 11), (.u32V 2, .u32V 12), (.u32V 3, .u32V 10)]

def demoHostC7 : Host :=
  { objects := [.mapO demoMapEntries], storage := ⟨[], []⟩, context := [],
    budget := ⟨100, 0⟩, events := [] }

/-- C7 witness: on the map {U32(3)→A, U32(1)→B, U32(2)→C} the minimum key
is U32(1), the maximum U32(3), the next key after U32(1) is U32(2) and the
previous key before U32(3) is U32(2). -/
theorem c7_witness :
    (mapMinKey ⟨ObjType.mapT, 0⟩ demoHostC7).1 = .ok (.u32V 1) ∧
    (mapMaxKey ⟨ObjType.mapT, 0⟩ demoHostC7).1 = .ok (.u32V 3) ∧
    (mapNextKey ⟨ObjType.mapT, 0⟩ (.u32V 1) demoHostC7).1 = .ok (.u32V 2) ∧
    (mapPrevKey ⟨ObjType.mapT, 0⟩ (.u32V 3) demoHostC7).1 = .ok (.u32V 2) := by
  have h1 := c7_map_neighbor_keys ⟨ObjType.mapT, 0⟩ (.u32V 1) demoHostC7
    demoMapEntries (by decide) (by decide)
  have h3 := c7_map_neighbor_keys ⟨ObjType.mapT, 0⟩ (.u32V 3) demoHostC7
    demoMapEntries (by decide) (by decide)
  refine ⟨h1.2.2.1.trans (by rfl), h1.2.2.2.trans (by rfl),
    h1.2.1.trans (by rfl), h3.1.trans (by rfl)⟩

/-- The external executors the invocation path dispatches into: the WASM
engine (a black-box execution service per the spec) and the built-in
token contract (out of the spec's scope); both are parameters of the
model. -/
structure Dispatch where
  wasmInvoke : List Nat → List Nat → Nat → List RawVal → HostM RawVal
  tokenCall : Nat → List RawVal → HostM RawVal

/-- `hash_from_obj_input`. Modelled from the spec (`data_helper.rs` is not
among the sources): visit the `Bin` object and require a 32-byte contract
id. -/
def hashFromObjInput (o : ObjRef) : HostM (List Nat) :=
  visitObjWith extractBin o (fun bs =>
    if bs.length = 32 then pure bs
    else throwH (errStatusMsg .fnInputArgsInvalid "not a 32-byte hash"))

/-- `retrieve_contract_code_from_storage`. Modelled from the spec: read
the ledger entry under the contract-code key and expect contract code. -/
def retrieveContractCode (key : LedgerKey) : HostM ContractCode := fun st =>
  match st.storage.getEntry key with
  | .error e => (.error e, st)
  | .ok entry =>
    match entry.data with
    | .contractCodeE cc => (.ok cc, st)
    | _ => (.error (errGeneral "expected contract code"), st)

/-- `Host::call_contract_fn`: load the contract code and dispatch — the
WASM engine for `Wasm`, the built-in token under a `Token` frame for
`Token`. -/
def callContractFn (d : Dispatch) (id : List Nat) (func : Nat)
    (args : List RawVal) : HostM RawVal :=
  retrieveContractCode (.contractCodeK id) >>= fun cc =>
    match cc with
    | .wasm code => d.wasmInvoke id code func args
    | .token => withFrame (.tokenFrame id) (d.tokenCall func args)

/-- `Host::call_n` (the testutils registry is compiled out in
production). -/
def callN (d : Dispatch) (contract : ObjRef) (func : Nat)
    (args : List RawVal) : HostM RawVal :=
  hashFromObjInput contract >>= fun id => callContractFn d id func args

/-- `CheckedEnv::call` (`host.rs` lines 1369-1375): unpack the argument
vector, charging `CallArgsUnpack` with its length, then `call_n`. -/
def callHost (d : Dispatch) (contract : ObjRef) (func : Nat)
    (args : ObjRef) : HostM RawVal :=
  visitObjWith extractVec args (fun hv =>
    chargeBudget .callArgsUnpack hv.length >>= fun _ => pure hv) >>=
  fun argList => callN d contract func argList

/-- The debug event `try_call` records for a callee error. -/
def tryCallEvent (s : Status) : DebugEvent :=
  { msg := some "try_call got error from callee contract",
    args := [DebugArg.valA s.toRaw] }

/-- `CheckedEnv::try_call` (`host.rs` lines 1378-1389): forward a
successful `call`; on a callee error record a debug event carrying the
error's status and return the status as a RawVal — but a failure of the
recording itself (its budget charge) propagates through the `?`. -/
def tryCall (d : Dispatch) (contract : ObjRef) (func : Nat)
    (args : ObjRef) : HostM RawVal := fun st =>
  match callHost d contract func args st with
  | (.ok rv, st2) => (.ok rv, st2)
  | (.error e, st2) =>
    match recordDebugEvent (tryCallEvent e.status) st2 with
    | (.ok _, st3) => (.ok e.status.toRaw, st3)
    | (.error e2, st3) => (.error e2, st3)

/-- C2 (amended): when the underlying `call` fails, `try_call` appends a
debug event carrying the error's status and — provided the event's
`HostEventDebug` charge succeeds — returns `Ok` with the status as a
RawVal; when that charge fails (budget exhausted) `try_call` returns the
budget error instead, the one case in which it propagates an error, with
the event still appended. -/
theorem c2_try_call (d : Dispatch) (contract : ObjRef) (func : Nat)
    (args : ObjRef) (st st2 : Host) (e : HostError)
    (hcall : callHost d contract func args st = (.error e, st2)) :
    tryCall d contract func args st =
      ((if st2.budget.total + 1 ≤ st2.budget.limit
        then Except.ok e.status.toRaw else Except.error budgetError),
       { st2 with
         events := st2.events ++ [HostEvent.debugE (tryCallEvent e.status)],
         budget := ⟨st2.budget.limit, st2.budget.total + 1⟩ }) := by
  unfold tryCall
  rw [hcall]
  dsimp only
  rw [recordDebugEvent_run]
  have hlen : (tryCallEvent e.status).args.length = 1 := rfl
  rw [hlen]
  by_cases hc : st2.budget.total + 1 ≤ st2.budget.limit
  · rw [if_pos hc, if_pos hc]
  · rw [if_neg hc, if_neg hc]

def demoDispatch : Dispatch :=
  { wasmInvoke := fun _ _ _ _ => pure .voidV,
    tokenCall := fun _ _ => pure .voidV }

def demoHostC2 : Host :=
  { objects := [], storage := ⟨[], []⟩, context := [], budget := ⟨0, 0⟩,
    events := [] }

/-- C2 counterexample: with the budget exhausted, `call` fails and the
debug-event charge inside `try_call` fails as well, so `try_call` itself
returns an error — it does propagate. -/
theorem c2_counterexample :
    (∃ e st2, callHost demoDispatch ⟨ObjType.binT, 0⟩ 0 ⟨ObjType.vecT, 1⟩
        demoHostC2 = (Except.error e, st2)) ∧
    (tryCall demoDispatch ⟨ObjType.binT, 0⟩ 0 ⟨ObjType.vecT, 1⟩ demoHostC2).1 =
      Except.error budgetError := by
  refine ⟨⟨budgetError,
    (callHost demoDispatch ⟨ObjType.binT, 0⟩ 0 ⟨ObjType.vecT, 1⟩ demoHostC2).2,
    rfl⟩, rfl⟩

def demoHostC2W : Host :=
  { objects := [.u64O 0], storage := ⟨[], []⟩, context := [], budget := ⟨100, 0⟩,
    events := [] }

/-- C2 witness: a call failing for a non-budget reason (the argument
object is not a vector) makes `try_call` record the event and return the
status as a RawVal. -/
theorem c2_witness :
    (tryCall demoDispatch ⟨ObjType.binT, 0⟩ 0 ⟨ObjType.vecT, 0⟩ demoHostC2W).1 =
      Except.ok (Status.objUnexpectedType.toRaw) ∧
    (tryCall demoDispatch ⟨ObjType.binT, 0⟩ 0 ⟨ObjType.vecT, 0⟩ demoHostC2W).2.events =
      demoHostC2W.events ++
        [HostEvent.debugE (tryCallEvent Status.objUnexpectedType)] := by
  have h := c2_try_call demoDispatch ⟨ObjType.binT, 0⟩ 0 ⟨ObjType.vecT, 0⟩
    demoHostC2W
    ((callHost demoDispatch ⟨ObjType.binT, 0⟩ 0 ⟨ObjType.vecT, 0⟩ demoHostC2W).2)
    (errStatus .objUnexpectedType) rfl
  rw [h]
  exact ⟨rfl, rfl⟩

/-!
XDR value conversions. Modelled from the spec: `ScVal::try_from_val` and
`TryIntoVal` live in the common crate outside the sources, while
`from_host_obj`/`to_host_obj` are `host.rs` lines 473-569. Recursion
through the object graph is bounded by a fuel parameter; the source
relies on the table being acyclic (an object can only reference handles
added before it), so any fuel past the table length behaves like the
source — the wrapper below passes the table length plus one.
-/

mutual

def fromHostVal : Nat → RawVal → HostM ScVal
  | fuel, v => fun st =>
    match chargeBudget .valXdrConv 1 st with
    | (.error e, st2) => (.error e, st2)
    | (.ok _, st2) =>
      match v with
      | .voidV => (.ok .voidS, st2)
      | .boolV b => (.ok (.boolS b), st2)
      | .statusV c => (.ok (.statusS c), st2)
      | .u32V n => (.ok (.u32S n), st2)
      | .i32V n => (.ok (.i32S n), st2)
      | .symbolV s => (.ok (.symbolS s), st2)
      | .objectV _ h =>
        match fuel with
        | 0 => (.error (errStatus .valUnknownError), st2)
        | fuel2 + 1 => fromHostObjConv fuel2 h st2
termination_by fuel v => (fuel, 0, 0)

def fromHostObjConv : Nat → Nat → HostM ScVal
  | fuel, h => fun st =>
    match chargeBudget .visitObject 1 st with
    | (.error e, st2) => (.error e, st2)
    | (.ok _, st2) =>
      match chargeBudget .valXdrConv 1 st2 with
      | (.error e, st3) => (.error e, st3)
      | (.ok _, st3) =>
        match st3.objects[h]? with
        | none => (.error (errStatus .objUnknownReference), st3)
        | some ho =>
          match ho with
          | .vecO xs =>
            match chargeBudget .scVecFromHostVec xs.length st3 with
            | (.error e, st4) => (.error e, st4)
            | (.ok _, st4) =>
              match fromHostValList fuel xs st4 with
              | (.ok svs, st5) => (.ok (.vecS svs), st5)
              | (.error e, st5) => (.error e, st5)
          | .mapO es =>
            match chargeBudget .scMapFromHostMap es.length st3 with
            | (.error e, st4) => (.error e, st4)
            | (.ok _, st4) =>
              match fromHostValPairs fuel es st4 with
              | (.ok svs, st5) => (.ok (.mapS svs), st5)
              | (.error e, st5) => (.error e, st5)
          | .u64O n => (.ok (.u64S n), st3)
          | .i64O n => (.ok (.i64S n), st3)
          | .binO bs => (.ok (.bytesS bs), st3)
          | .bigintO n => (.ok (.bigintS n), st3)
          | .hashO bs => (.ok (.hashS bs), st3)
          | .pkO bs => (.ok (.pkS bs), st3)
          | .codeO cc => (.ok (.codeS cc), st3)
termination_by fuel h => (fuel, 1, 0)

def fromHostValList : Nat → List RawVal → HostM (List ScVal)
  | _, [] => fun st => (.ok [], st)
  | fuel, x :: xs => fun st =>
    match fromHostVal fuel x st with
    | (.error e, st2) => (.error e, st2)
    | (.ok sv, st2) =>
      match fromHostValList fuel xs st2 with
      | (.error e, st3) => (.error e, st3)
      | (.ok svs, st3) => (.ok (sv :: svs), st3)
termination_by fuel xs => (fuel, 0, xs.length + 1)

def fromHostValPairs : Nat → List (RawVal × RawVal) → HostM (List (ScVal × ScVal))
  | _, [] => fun st => (.ok [], st)
  | fuel, (k, v) :: xs => fun st =>
    match fromHostVal fuel k st with
    | (.error e, st2) => (.error e, st2)
    | (.ok sk, st2) =>
      match fromHostVal fuel v st2 with
      | (.error e, st3) => (.error e, st3)
      | (.ok sv, st3) =>
        match fromHostValPairs fuel xs st3 with
        | (.error e, st4) => (.error e, st4)
        | (.ok svs, st4) => (.ok ((sk, sv) :: svs), st4)
termination_by fuel xs => (fuel, 0, xs.length + 1)

end

/-- `Host::from_host_val` at full fuel. -/
def fromHostValTop (v : RawVal) : HostM ScVal := fun st =>
  fromHostVal (st.objects.length + 1) v st

/-- Insert into the sorted entry list of a host map, replacing an equal
key, as `OrdMap::insert` does. -/
def sortedInsert (k v : RawVal) : List (RawVal × RawVal) → List (RawVal × RawVal)
  | [] => [(k, v)]
  | e :: rest =>
    match RawVal.cmp k e.1 with
    | .lt => (k, v) :: e :: rest
    | .eq => (k, v) :: rest
    | .gt => e :: sortedInsert k v rest

mutual

def toHostVal : ScVal → HostM RawVal
  | .voidS => fun st =>
    match chargeBudget .valXdrConv 1 st with
    | (.error e, st2) => (.error e, st2)
    | (.ok _, st2) => (.ok .voidV, st2)
  | .boolS b => fun st =>
    match chargeBudget .valXdrConv 1 st with
    | (.error e, st2) => (.error e, st2)
    | (.ok _, st2) => (.ok (.boolV b), st2)
  | .statusS c => fun st =>
    match chargeBudget .valXdrConv 1 st with
    | (.error e, st2) => (.error e, st2)
    | (.ok _, st2) => (.ok (.statusV c), st2)
  | .u32S n => fun st =>
    match chargeBudget .valXdrConv 1 st with
    | (.error e, st2) => (.error e, st2)
    | (.ok _, st2) => (.ok (.u32V n), st2)
  | .i32S n => fun st =>
    match chargeBudget .valXdrConv 1 st with
    | (.error e, st2) => (.error e, st2)
    | (.ok _, st2) => (.ok (.i32V n), st2)
  | .symbolS s => fun st =>
    match chargeBudget .valXdrConv 1 st with
    | (.error e, st2) => (.error e, st2)
    | (.ok _, st2) => (.ok (.symbolV s), st2)
  | .vecS xs => fun st =>
    match chargeBudget .valXdrConv 1 st with
    | (.error e, st2) => (.error e, st2)
    | (.ok _, st2) =>
      match chargeBudget .scVecToHostVec xs.length st2 with
      | (.error e, st3) => (.error e, st3)
      | (.ok _, st3) =>
        match toHostValList xs st3 with
        | (.error e, st4) => (.error e, st4)
        | (.ok vs, st4) =>
          match addHostObject (.vecO vs) st4 with
          | (.ok o, st5) => (.ok o.toRaw, st5)
          | (.error e, st5) => (.error e, st5)
  | .mapS es => fun st =>
    match chargeBudget .valXdrConv 1 st with
    | (.error e, st2) => (.error e, st2)
    | (.ok _, st2) =>
      match chargeBudget .scMapToHostMap es.length st2 with
      | (.error e, st3) => (.error e, st3)
      | (.ok _, st3) =>
        match toHostValPairs es st3 with
        | (.error e, st4) => (.error e, st4)
        | (.ok ps, st4) =>
          match addHostObject
              (.mapO (ps.foldl (fun acc p => sortedInsert p.1 p.2 acc) [])) st4 with
          | (.ok o, st5) => (.ok o.toRaw, st5)
          | (.error e, st5) => (.error e, st5)
  | .u64S n => fun st =>
    match chargeBudget .valXdrConv 1 st with
    | (.error e, st2) => (.error e, st2)
    | (.ok _, st2) =>
      match addHostObject (.u64O n) st2 with
      | (.ok o, st3) => (.ok o.toRaw, st3)
      | (.error e, st3) => (.error e, st3)
  | .i64S n => fun st =>
    match chargeBudget .valXdrConv 1 st with
    | (.error e, st2) => (.error e, st2)
    | (.ok _, st2) =>
      match addHostObject (.i64O n) st2 with
      | (.ok o, st3) => (.ok o.toRaw, st3)
      | (.error e, st3) => (.error e, st3)
  | .bytesS bs => fun st =>
    match chargeBudget .valXdrConv 1 st with
    | (.error e, st2) => (.error e, st2)
    | (.ok _, st2) =>
      match addHostObject (.binO bs) st2 with
      | (.ok o, st3) => (.ok o.toRaw, st3)
      | (.error e, st3) => (.error e, st3)
  | .bigintS n => fun st =>
    match chargeBudget .valXdrConv 1 st with
    | (.error e, st2) => (.error e, st2)
    | (.ok _, st2) =>
      match addHostObject (.bigintO n) st2 with
      | (.ok o, st3) => (.ok o.toRaw, st3)
      | (.error e, st3) => (.error e, st3)
  | .hashS bs => fun st =>
    match chargeBudget .valXdrConv 1 st with
    | (.error e, st2) => (.error e, st2)
    | (.ok _, st2) =>
      match addHostObject (.hashO bs) st2 with
      | (.ok o, st3) => (.ok o.toRaw, st3)
      | (.error e, st3) => (.error e, st3)
  | .pkS bs => fun st =>
    match chargeBudget .valXdrConv 1 st with
    | (.error e, st2) => (.error e, st2)
    | (.ok _, st2) =>
      match addHostObject (.pkO bs) st2 with
      | (.ok o, st3) => (.ok o.toRaw, st3)
      | (.error e, st3) => (.error e, st3)
  | .codeS cc => fun st =>
    match chargeBudget .valXdrConv 1 st with
    | (.error e, st2) => (.error e, st2)
    | (.ok _, st2) =>
      match addHostObject (.codeO cc) st2 with
      | (.ok o, st3) => (.ok o.toRaw, st3)
      | (.error e, st3) => (.error e, st3)
termination_by v => sizeOf v

def toHostValList : List ScVal → HostM (List RawVal)
  | [] => fun st => (.ok [], st)
  | x :: xs => fun st =>
    match toHostVal x st with
    | (.error e, st2) => (.error e, st2)
    | (.ok v, st2) =>
      match toHostValList xs st2 with
      | (.error e, st3) => (.error e, st3)
      | (.ok vs, st3) => (.ok (v :: vs), st3)
termination_by xs => sizeOf xs

def toHostValPairs : List (ScVal × ScVal) → HostM (List (RawVal × RawVal))
  | [] => fun st => (.ok [], st)
  | (k, v) :: xs => fun st =>
    match toHostVal k st with
    | (.error e, st2) => (.error e, st2)
    | (.ok rk, st2) =>
      match toHostVal v st2 with
      | (.error e, st3) => (.error e, st3)
      | (.ok rv, st3) =>
        match toHostValPairs xs st3 with
        | (.error e, st4) => (.error e, st4)
        | (.ok ps, st4) => (.ok ((rk, rv) :: ps), st4)
termination_by xs => sizeOf xs

end

/-- `Host::get_current_contract_id`: the contract id of the topmost frame;
a `HostFunction` frame has none, an empty stack is `NoContractRunning`. -/
def getCurrentContractId : HostM (List Nat) := fun st =>
  match st.context.getLast? with
  | none => (.error (errStatus .contextNoContractRunning), st)
  | some f =>
    match f with
    | .contractVM cid => (.ok cid, st)
    | .hostFunctionFrame _ =>
      (.error (errGeneral "Host function context has no contract ID"), st)
    | .tokenFrame cid => (.ok cid, st)
    | .testContractFrame cid => (.ok cid, st)

/-- `storage_key_from_rawval` / `contract_data_key_from_rawval`. Modelled
from the spec (`data_helper.rs` is not among the sources): the
contract-data key is the current contract id paired with the user key as
an ScVal. -/
def storageKeyFromRawval (k : RawVal) : HostM LedgerKey :=
  getCurrentContractId >>= fun cid =>
  fromHostValTop k >>= fun sk =>
  pure (.contractData cid sk)

/-- `CheckedEnv::put_contract_data` (`host.rs` lines 1240-1254): derive
the key, build a `ContractData` ledger entry carrying the current
contract id and the key and value as ScVals, and put it. -/
def putContractData (k v : RawVal) : HostM RawVal :=
  storageKeyFromRawval k >>= fun key =>
  getCurrentContractId >>= fun cid =>
  fromHostValTop k >>= fun kS =>
  fromHostValTop v >>= fun vS =>
  (fun st =>
    (.ok (), { st with storage :=
      st.storage.putEntry key ⟨0, .contractDataE cid kS vS⟩ })) >>= fun _ =>
  pure .voidV

/-- `CheckedEnv::get_contract_data` (`host.rs` lines 1264-1277): read the
entry and convert the stored value back to a host value; a non
contract-data entry is `ExpectContractData`. -/
def getContractData (k : RawVal) : HostM RawVal :=
  storageKeyFromRawval k >>= fun key => fun st =>
    match st.storage.getEntry key with
    | .error e => (.error e, st)
    | .ok entry =>
      match entry.data with
      | .contractDataE _ _ val => toHostVal val st
      | _ =>
        (.error (errStatusMsg .storageExpectContractData "expected contract data"),
         st)

/-- `CheckedEnv::has_contract_data` (`host.rs` lines 1257-1261). -/
def hasContractData (k : RawVal) : HostM RawVal :=
  storageKeyFromRawval k >>= fun key => fun st =>
    (.ok (RawVal.boolV (st.storage.hasKey key)), st)

/-- `CheckedEnv::del_contract_data` (`host.rs` lines 1280-1284). -/
def delContractData (k : RawVal) : HostM RawVal :=
  storageKeyFromRawval k >>= fun key => fun st =>
    (.ok RawVal.voidV, { st with storage := st.storage.delEntry key })

/-- The ScVal image of a non-object RawVal (the object arm is never used:
every caller requires a non-object value). -/
def smallToSc : RawVal → ScVal
  | .voidV => .voidS
  | .boolV b => .boolS b
  | .statusV c => .statusS c
  | .u32V n => .u32S n
  | .i32V n => .i32S n
  | .symbolV s => .symbolS s
  | .objectV _ _ => .voidS

theorem fromHostVal_small (fuel : Nat) (v : RawVal) (st : Host)
    (hv : ∀ t h, v ≠ RawVal.objectV t h)
    (hb : st.budget.total + 1 ≤ st.budget.limit) :
    fromHostVal fuel v st = (.ok (smallToSc v), bumpB st 1) := by
  cases v with
  | objectV t h => exact absurd rfl (hv t h)
  | voidV =>
    unfold fromHostVal
    rw [chargeBudget_ok _ _ _ hb]
    rfl
  | boolV b =>
    unfold fromHostVal
    rw [chargeBudget_ok _ _ _ hb]
    rfl
  | statusV c =>
    unfold fromHostVal
    rw [chargeBudget_ok _ _ _ hb]
    rfl
  | u32V n =>
    unfold fromHostVal
    rw [chargeBudget_ok _ _ _ hb]
    rfl
  | i32V n =>
    unfold fromHostVal
    rw [chargeBudget_ok _ _ _ hb]
    rfl
  | symbolV s =>
    unfold fromHostVal
    rw [chargeBudget_ok _ _ _ hb]
    rfl

theorem toHostVal_small (v : RawVal) (st : Host)
    (hv : ∀ t h, v ≠ RawVal.objectV t h)
    (hb : st.budget.total + 1 ≤ st.budget.limit) :
    toHostVal (smallToSc v) st = (.ok v, bumpB st 1) := by
  cases v with
  | objectV t h => exact absurd rfl (hv t h)
  | voidV =>
    unfold toHostVal smallToSc
    dsimp only
    rw [chargeBudget_ok _ _ _ hb]
  | boolV b =>
    unfold toHostVal smallToSc
    dsimp only
    rw [chargeBudget_ok _ _ _ hb]
  | statusV c =>
    unfold toHostVal smallToSc
    dsimp only
    rw [chargeBudget_ok _ _ _ hb]
  | u32V n =>
    unfold toHostVal smallToSc
    dsimp only
    rw [chargeBudget_ok _ _ _ hb]
  | i32V n =>
    unfold toHostVal smallToSc
    dsimp only
    rw [chargeBudget_ok _ _ _ hb]
  | symbolV s =>
    unfold toHostVal smallToSc
    dsimp only
    rw [chargeBudget_ok _ _ _ hb]

theorem scValBeq_small_refl (v : RawVal) (hv : ∀ t h, v ≠ RawVal.objectV t h) :
    scValBeq (smallToSc v) (smallToSc v) = true := by
  cases v with
  | objectV t h => exact absurd rfl (hv t h)
  | voidV => rfl
  | boolV b => simp [smallToSc, scValBeq]
  | statusV c => simp [smallToSc, scValBeq]
  | u32V n => simp [smallToSc, scValBeq]
  | i32V n => simp [smallToSc, scValBeq]
  | symbolV s => simp [smallToSc, scValBeq]

theorem getCurrentContractId_run (st : Host) (cid : List Nat) (ctx : List Frame)
    (hframe : st.context = ctx ++ [Frame.tokenFrame cid]) :
    getCurrentContractId st = (.ok cid, st) := by
  unfold getCurrentContractId
  rw [hframe, List.getLast?_concat]

theorem storageKeyFromRawval_run (k : RawVal) (st : Host) (cid : List Nat)
    (ctx : List Frame) (hk : ∀ t h, k ≠ RawVal.objectV t h)
    (hframe : st.context = ctx ++ [Frame.tokenFrame cid])
    (hb : st.budget.total + 1 ≤ st.budget.limit) :
    storageKeyFromRawval k st =
      (.ok (.contractData cid (smallToSc k)), bumpB st 1) := by
  unfold storageKeyFromRawval
  rw [bind_apply, getCurrentContractId_run st cid ctx hframe]
  dsimp only
  rw [bind_apply]
  unfold fromHostValTop
  rw [fromHostVal_small _ k st hk hb]
  dsimp only
  rw [pure_apply]

theorem ledgerKeyBeq_refl_cd (cid : List Nat) (sk : ScVal)
    (hsk : scValBeq sk sk = true) :
    ledgerKeyBeq (.contractData cid sk) (.contractData cid sk) = true := by
  simp [ledgerKeyBeq, hsk]

/-- C8 (amended): inside a contract frame, for non-object keys and
values, `put_contract_data` followed by `get_contract_data` returns the
value put and `has_contract_data` is true; after `del_contract_data`,
`has` is false and `get` fails with `MissingValue`. (For object-valued
data `get` returns a fresh handle to an equal value, not the original
RawVal — see the counterexample.) -/
theorem c8_contract_data_roundtrip (cid : List Nat) (ctx : List Frame) (st : Host)
    (k v : RawVal) (hk : ∀ t h, k ≠ RawVal.objectV t h)
    (hv : ∀ t h, v ≠ RawVal.objectV t h)
    (hframe : st.context = ctx ++ [Frame.tokenFrame cid])
    (hbud : st.budget.total + 8 ≤ st.budget.limit) :
    ∃ st1 st2,
      putContractData k v st = (.ok .voidV, st1) ∧
      (getContractData k st1).1 = .ok v ∧
      (hasContractData k st1).1 = .ok (.boolV true) ∧
      delContractData k st1 = (.ok .voidV, st2) ∧
      (hasContractData k st2).1 = .ok (.boolV false) ∧
      (getContractData k st2).1 = .error (errStatus .storageMissingValue) := by
  have hbeq : ledgerKeyBeq (.contractData cid (smallToSc k))
      (.contractData cid (smallToSc k)) = true :=
    ledgerKeyBeq_refl_cd cid (smallToSc k) (scValBeq_small_refl k hk)
  refine ⟨{ st with
      budget := ⟨st.budget.limit, st.budget.total + 3⟩,
      storage := { st.storage with map :=
        (LedgerKey.contractData cid (smallToSc k),
         some ⟨0, .contractDataE cid (smallToSc k) (smallToSc v)⟩) ::
          st.storage.map } },
    { st with
      budget := ⟨st.budget.limit, st.budget.total + 4⟩,
      storage := { st.storage with map :=
        (LedgerKey.contractData cid (smallToSc k), none) ::
        (LedgerKey.contractData cid (smallToSc k),
         some ⟨0, .contractDataE cid (smallToSc k) (smallToSc v)⟩) ::
          st.storage.map } },
    ?_, ?_, ?_, ?_, ?_, ?_⟩
  · unfold putContractData
    rw [bind_apply,
      storageKeyFromRawval_run k st cid ctx hk hframe (by omega)]
    dsimp only
    rw [bind_apply, getCurrentContractId_run (bumpB st 1) cid ctx (by simpa using hframe)]
    dsimp only
    rw [bind_apply]
    unfold fromHostValTop
    rw [fromHostVal_small _ k (bumpB st 1) hk (by simp [bumpB]; omega),
      bumpB_bumpB]
    dsimp only
    rw [bind_apply]
    rw [fromHostVal_small _ v (bumpB st (1 + 1)) hv (by simp [bumpB]; omega)]
    dsimp only
    rw [bind_apply]
    dsimp only
    rw [pure_apply]
    rfl
  · unfold getContractData
    rw [bind_apply,
      storageKeyFromRawval_run k _ cid ctx hk (by simpa using hframe) (by dsimp only; omega)]
    dsimp only
    unfold Storage.getEntry overlayLookup
    dsimp only [bumpB]
    rw [if_pos hbeq]
    dsimp only
    rw [toHostVal_small v _ hv (by dsimp only; omega)]
  · unfold hasContractData
    rw [bind_apply,
      storageKeyFromRawval_run k _ cid ctx hk (by simpa using hframe) (by dsimp only; omega)]
    dsimp only
    unfold Storage.hasKey overlayLookup
    dsimp only [bumpB]
    rw [if_pos hbeq]
  · unfold delContractData
    rw [bind_apply,
      storageKeyFromRawval_run k _ cid ctx hk (by simpa using hframe) (by dsimp only; omega)]
    dsimp only
    rfl
  · unfold hasContractData
    rw [bind_apply,
      storageKeyFromRawval_run k _ cid ctx hk (by simpa using hframe) (by dsimp only; omega)]
    dsimp only
    unfold Storage.hasKey overlayLookup
    dsimp only [bumpB]
    rw [if_pos hbeq]
  · unfold getContractData
    rw [bind_apply,
      storageKeyFromRawval_run k _ cid ctx hk (by simpa using hframe) (by dsimp only; omega)]
    dsimp only
    unfold Storage.getEntry overlayLookup
    dsimp only [bumpB]
    rw [if_pos hbeq]

def demoHostC8 : Host :=
  { objects := [.u64O 5], storage := ⟨[], []⟩, context := [.tokenFrame [7]],
    budget := ⟨100, 0⟩, events := [] }

/-- C8 counterexample: with an object-valued `v` (a handle to the U64
object 5), `get_contract_data` after `put_contract_data` returns a fresh
handle (index 1) denoting an equal value — not the RawVal `v` (index 0)
that was put. -/
theorem c8_counterexample :
    (putContractData (.u32V 1) (.objectV ObjType.u64T 0) demoHostC8).1 =
      .ok .voidV ∧
    (getContractData (.u32V 1)
        (putContractData (.u32V 1) (.objectV ObjType.u64T 0) demoHostC8).2).1 =
      .ok (.objectV ObjType.u64T 1) ∧
    RawVal.objectV ObjType.u64T 1 ≠ RawVal.objectV ObjType.u64T 0 := by
  refine ⟨?_, ?_, by decide⟩ <;>
    simp [putContractData, getContractData, storageKeyFromRawval,
      getCurrentContractId, fromHostValTop, fromHostVal, fromHostObjConv,
      toHostVal, chargeBudget, demoHostC8, Storage.getEntry, Storage.putEntry,
      overlayLookup, ledgerKeyBeq, scValBeq, addHostObject,
      chargeForNewHostObject, hostObjectExtraCharge, uint32Max, ObjRef.toRaw,
      HostObject.objType]

def demoHostC8W : Host :=
  { objects := [], storage := ⟨[], []⟩, context := [.tokenFrame [7]],
    budget := ⟨100, 0⟩, events := [] }

/-- C8 witness: the round trip on `Symbol`-keyed `U32(7)` data inside a
token frame. -/
theorem c8_witness :
    ∃ st1 st2,
      putContractData (.symbolV 7) (.u32V 7) demoHostC8W = (.ok .voidV, st1) ∧
      (getContractData (.symbolV 7) st1).1 = .ok (.u32V 7) ∧
      (hasContractData (.symbolV 7) st1).1 = .ok (.boolV true) ∧
      delContractData (.symbolV 7) st1 = (.ok .voidV, st2) ∧
      (hasContractData (.symbolV 7) st2).1 = .ok (.boolV false) ∧
      (getContractData (.symbolV 7) st2).1 = .error (errStatus .storageMissingValue) :=
  c8_contract_data_roundtrip [7] [] demoHostC8W (.symbolV 7) (.u32V 7)
    (fun t h h2 => nomatch h2) (fun t h h2 => nomatch h2) rfl (by decide)

/-- Token-contract errors. Modelled from the spec:
`native_contract/token/error.rs` is not among the sources; the token
functions fail with `ContractError` or with a host error carried through
the `From<HostError>` conversion that the `?` operator applies. -/
inductive TokenError
  | contractErr
  | hostErr (e : HostError)

/-- The token contract computes over the host state and fails with a
`TokenError`. -/
def TokenM (α : Type) : Type := Host → Except TokenError α × Host

instance : Monad TokenM where
  pure a := fun st => (.ok a, st)
  bind m f := fun st =>
    match m st with
    | (.ok a, st2) => f a st2
    | (.error e, st2) => (.error e, st2)

def throwT {α : Type} (e : TokenError) : TokenM α := fun st => (.error e, st)

/-- Run a host computation inside the token contract, converting a host
error as `From<HostError> for Error` does. -/
def liftH {α : Type} (m : HostM α) : TokenM α := fun st =>
  match m st with
  | (.ok a, st2) => (.ok a, st2)
  | (.error e, st2) => (.error (.hostErr e), st2)

@[simp]
theorem tpure_apply {α : Type} (a : α) (st : Host) :
    (pure a : TokenM α) st = (.ok a, st) := rfl

theorem tbind_apply {α β : Type} (m : TokenM α) (f : α → TokenM β) (st : Host) :
    (m >>= f) st =
      match m st with
      | (.ok a, st2) => f a st2
      | (.error e, st2) => (.error e, st2) := rfl

@[simp]
theorem throwT_apply {α : Type} (e : TokenError) (st : Host) :
    (throwT e : TokenM α) st = (.error e, st) := rfl

theorem liftH_apply {α : Type} (m : HostM α) (st : Host) :
    liftH m st =
      match m st with
      | (.ok a, st2) => (.ok a, st2)
      | (.error e, st2) => (.error (.hostErr e), st2) := rfl

/-- `MeteredBigInt::from_u64`, modelled like `meteredBigIntDiv`. -/
def meteredBigIntFromU64 (x : Nat) : HostM Int := fun st =>
  match chargeBudget .bigIntOp 1 st with
  | (.ok _, st2) => (.ok (x : Int), st2)
  | (.error e, st2) => (.error e, st2)

/-- `MeteredBigInt::sub`, modelled like `meteredBigIntDiv`. -/
def meteredBigIntSub (a b : Int) : HostM Int := fun st =>
  match chargeBudget .bigIntOp 1 st with
  | (.ok _, st2) => (.ok (a - b), st2)
  | (.error e, st2) => (.error e, st2)

/-- `CheckedEnv::bigint_from_u64` (`host.rs` lines 1391-1395). -/
def bigintFromU64 (x : Nat) : HostM ObjRef :=
  meteredBigIntFromU64 x >>= fun n => addHostObject (.bigintO n)

/-- `CheckedEnv::bigint_sub` (`host.rs` lines 1430-1436): visit both
operands, subtract, and add the result object. -/
def bigintSub (x y : ObjRef) : HostM ObjRef :=
  visitObjWith extractBigInt x (fun a =>
    visitObjWith extractBigInt y (fun b =>
      meteredBigIntSub a b)) >>= fun res => addHostObject (.bigintO res)

/-- `CheckedEnv::bigint_cmp` (`host.rs` lines 1517-1521): visit both
operands and return their ordering as an i32 `RawVal`. -/
def bigintCmp (x y : ObjRef) : HostM RawVal :=
  visitObjWith extractBigInt x (fun a =>
    visitObjWith extractBigInt y (fun b =>
      pure (.i32V (ordToInt (icmp a b)))))

/-- `DataKey::Balance(id)` as a `RawVal`. Modelled from the spec:
`storage_types.rs` is not among the sources; identifiers are numbered and
the balance and state keys of an identifier are kept distinct by parity. -/
def dataKeyBalanceRaw (id : Nat) : RawVal := .u32V (2 * id)

/-- `DataKey::State(id)` as a `RawVal`; see `dataKeyBalanceRaw`. -/
def dataKeyStateRaw (id : Nat) : RawVal := .u32V (2 * id + 1)

/-- `BigInt::try_from_val` on a `RawVal`. Modelled from the spec
(`base_types.rs` is not among the sources): a `BigInt`-tagged object
reference converts, anything else is a conversion error. -/
def rawToBigIntRef (v : RawVal) : TokenM ObjRef := fun st =>
  match v with
  | .objectV .bigintT h => (.ok ⟨.bigintT, h⟩, st)
  | _ => (.error (.hostErr (errGeneral "value is not a BigInt object")), st)

/-- `bool::try_from` on a `RawVal`. Modelled from the spec. -/
def rawToBool (v : RawVal) : TokenM Bool := fun st =>
  match v with
  | .boolV b => (.ok b, st)
  | _ => (.error (.hostErr (errGeneral "value is not a bool")), st)

/-- `read_balance` (`balance.rs` lines 9-16): a readable balance entry is
converted to a `BigInt`; any `get_contract_data` failure falls back to
`BigInt::from_u64(e, 0)`. -/
def readBalance (id : Nat) : TokenM ObjRef := fun st =>
  match getContractData (dataKeyBalanceRaw id) st with
  | (.ok v, st2) => rawToBigIntRef v st2
  | (.error _, st2) => liftH (bigintFromU64 0) st2

/-- `read_state` (`balance.rs` lines 46-53): a readable state entry is
converted to a bool; any `get_contract_data` failure falls back to
`false`. -/
def readState (id : Nat) : TokenM Bool := fun st =>
  match getContractData (dataKeyStateRaw id) st with
  | (.ok v, st2) => rawToBool v st2
  | (.error _, st2) => (.ok false, st2)

/-- `write_balance` (`balance.rs` lines 18-22). -/
def writeBalance (id : Nat) (amount : ObjRef) : TokenM Unit :=
  liftH (putContractData (dataKeyBalanceRaw id) amount.toRaw) >>= fun _ =>
  pure ()

/-- `BigInt::compare`. Modelled from the spec (`base_types.rs` is not
among the sources): `bigint_cmp` on the two handles, its i32 result read
back as an `Ordering`. -/
def tokenBigIntCompare (x y : ObjRef) : TokenM Ordering :=
  liftH (bigintCmp x y) >>= fun v => fun st =>
    match v with
    | .i32V n =>
      (.ok (if n < 0 then Ordering.lt else if n = 0 then Ordering.eq
            else Ordering.gt), st)
    | _ => (.error (.hostErr (errGeneral "comparison did not return an i32")), st)

/-- `spend_balance` (`balance.rs` lines 34-44): read the balance and the
frozen state; a frozen account or a balance below the amount is a
`ContractError`, otherwise the difference is written back. -/
def spendBalance (id : Nat) (amount : ObjRef) : TokenM Unit :=
  readBalance id >>= fun balance =>
  readState id >>= fun isFrozen =>
  if isFrozen then throwT .contractErr
  else
    tokenBigIntCompare balance amount >>= fun ord =>
    if ord = .lt then throwT .contractErr
    else
      liftH (bigintSub balance amount) >>= fun diff =>
      writeBalance id diff

/-- The balance ledger binding of identifier `id` holding `b`. -/
def c10BalEntry (cid : List Nat) (id : Nat) (b : Int) :
    LedgerKey × Option LedgerEntry :=
  (.contractData cid (.u32S (2 * id)),
   some ⟨0, .contractDataE cid (.u32S (2 * id)) (.bigintS b)⟩)

/-- The state ledger binding of identifier `id` holding `frozen`. -/
def c10StateEntry (cid : List Nat) (id : Nat) (frozen : Bool) :
    LedgerKey × Option LedgerEntry :=
  (.contractData cid (.u32S (2 * id + 1)),
   some ⟨0, .contractDataE cid (.u32S (2 * id + 1)) (.boolS frozen)⟩)

/-- Storage for the `spend_balance` analysis: an optional balance entry
and a state entry for `id`, no parent entries. -/
def c10Storage (cid : List Nat) (id : Nat) (b : Int) (hasBal frozen : Bool) :
    Storage :=
  ⟨(if hasBal then [c10BalEntry cid id b] else []) ++
    [c10StateEntry cid id frozen], []⟩

/-- Host state for the `spend_balance` analysis: the amount object at
handle 0, the storage above, a token frame, an empty budget. -/
def tokenHostC10 (cid : List Nat) (id : Nat) (b : Int) (hasBal frozen : Bool)
    (a : Int) (lim : Nat) : Host :=
  { objects := [.bigintO a],
    storage := c10Storage cid id b hasBal frozen,
    context := [.tokenFrame cid],
    budget := ⟨lim, 0⟩,
    events := [] }

/-- The balance of `id` recorded in a storage, if any. -/
def storedBalance (cid : List Nat) (id : Nat) (s : Storage) : Option Int :=
  match s.getEntry (.contractData cid (.u32S (2 * id))) with
  | .ok ⟨_, .contractDataE _ _ (.bigintS n)⟩ => some n
  | _ => none

theorem ledgerKeyBeq_cd_same (cid : List Nat) (s1 s2 : ScVal) :
    ledgerKeyBeq (.contractData cid s1) (.contractData cid s2) =
      scValBeq s1 s2 := by
  simp [ledgerKeyBeq]

theorem scValBeq_u32 (m n : Nat) :
    scValBeq (.u32S m) (.u32S n) = (m == n) := rfl

theorem c10_balKey_beq (cid : List Nat) (id : Nat) :
    ledgerKeyBeq (.contractData cid (.u32S (2 * id)))
      (.contractData cid (.u32S (2 * id))) = true := by
  rw [ledgerKeyBeq_cd_same, scValBeq_u32]
  simp

theorem c10_stateKey_beq (cid : List Nat) (id : Nat) :
    ledgerKeyBeq (.contractData cid (.u32S (2 * id + 1)))
      (.contractData cid (.u32S (2 * id + 1))) = true := by
  rw [ledgerKeyBeq_cd_same, scValBeq_u32]
  simp

theorem c10_bal_state_beq (cid : List Nat) (id : Nat) :
    ledgerKeyBeq (.contractData cid (.u32S (2 * id)))
      (.contractData cid (.u32S (2 * id + 1))) = false := by
  rw [ledgerKeyBeq_cd_same, scValBeq_u32]
  simp

theorem c10_state_bal_beq (cid : List Nat) (id : Nat) :
    ledgerKeyBeq (.contractData cid (.u32S (2 * id + 1)))
      (.contractData cid (.u32S (2 * id))) = false := by
  rw [ledgerKeyBeq_cd_same, scValBeq_u32]
  simp

theorem overlayLookup_cons_pos (k2 k : LedgerKey) (v : Option LedgerEntry)
    (rest : List (LedgerKey × Option LedgerEntry))
    (h : ledgerKeyBeq k2 k = true) :
    overlayLookup ((k2, v) :: rest) k = some v := by
  simp [overlayLookup, h]

theorem overlayLookup_cons_neg (k2 k : LedgerKey) (v : Option LedgerEntry)
    (rest : List (LedgerKey × Option LedgerEntry))
    (h : ledgerKeyBeq k2 k = false) :
    overlayLookup ((k2, v) :: rest) k = overlayLookup rest k := by
  simp [overlayLookup, h]

theorem ordToInt_to_ordering (o : Ordering) :
    (if ordToInt o < 0 then Ordering.lt
     else if ordToInt o = 0 then Ordering.eq else Ordering.gt) = o := by
  cases o <;> simp [ordToInt]

theorem addHostObject_bigint (n : Int) (st : Host)
    (hlen : st.objects.length ≤ uint32Max)
    (hb : st.budget.total + 1 + bitsOf n ≤ st.budget.limit) :
    addHostObject (.bigintO n) st =
      (.ok ⟨.bigintT, st.objects.length⟩,
       { st with objects := st.objects ++ [.bigintO n],
                 budget := ⟨st.budget.limit,
                            st.budget.total + 1 + bitsOf n⟩ }) := by
  unfold addHostObject chargeForNewHostObject hostObjectExtraCharge
  rw [if_neg (by omega)]
  dsimp only
  rw [chargeBudget_ok _ _ _ (by omega)]
  dsimp only
  rw [chargeBudget_ok _ _ _ (by simp [bumpB]; omega)]
  dsimp only [bumpB]
  rfl

theorem toHostVal_bigintS (n : Int) (st : Host)
    (hlen : st.objects.length ≤ uint32Max)
    (hb : st.budget.total + 2 + bitsOf n ≤ st.budget.limit) :
    toHostVal (.bigintS n) st =
      (.ok (.objectV .bigintT st.objects.length),
       { st with objects := st.objects ++ [.bigintO n],
                 budget := ⟨st.budget.limit,
                            st.budget.total + 2 + bitsOf n⟩ }) := by
  unfold toHostVal
  rw [chargeBudget_ok _ _ _ (by omega)]
  dsimp only
  rw [addHostObject_bigint n (bumpB st 1) (by simpa using hlen)
    (by simp [bumpB]; omega)]
  dsimp only [bumpB, ObjRef.toRaw]

theorem fromHostValTop_bigintObj (t2 : ObjType) (h : Nat) (n : Int) (st : Host)
    (hobj : st.objects[h]? = some (.bigintO n))
    (hb : st.budget.total + 3 ≤ st.budget.limit) :
    fromHostValTop (.objectV t2 h) st = (.ok (.bigintS n), bumpB st 3) := by
  unfold fromHostValTop fromHostVal
  rw [chargeBudget_ok _ _ _ (by omega)]
  dsimp only
  unfold fromHostObjConv
  rw [chargeBudget_ok _ _ _ (by simp [bumpB]; omega), bumpB_bumpB]
  dsimp only
  rw [chargeBudget_ok _ _ _ (by simp [bumpB]; omega), bumpB_bumpB]
  dsimp only
  rw [bumpB_objects, hobj]

theorem bitsOf_zero : bitsOf 0 = 0 := rfl

theorem toHostVal_boolS (b2 : Bool) (st : Host)
    (hb : st.budget.total + 1 ≤ st.budget.limit) :
    toHostVal (.boolS b2) st = (.ok (.boolV b2), bumpB st 1) := by
  unfold toHostVal
  rw [chargeBudget_ok _ _ _ hb]

theorem fromHostValTop_small (v : RawVal) (st : Host)
    (hv : ∀ t h, v ≠ RawVal.objectV t h)
    (hb : st.budget.total + 1 ≤ st.budget.limit) :
    fromHostValTop v st = (.ok (smallToSc v), bumpB st 1) := by
  unfold fromHostValTop
  rw [fromHostVal_small _ v st hv hb]

theorem putContractData_bigintObj (cid : List Nat) (ctx : List Frame)
    (st : Host) (k : RawVal) (hk : ∀ t h, k ≠ RawVal.objectV t h)
    (t2 : ObjType) (h : Nat) (n : Int)
    (hobj : st.objects[h]? = some (.bigintO n))
    (hframe : st.context = ctx ++ [Frame.tokenFrame cid])
    (hb : st.budget.total + 5 ≤ st.budget.limit) :
    putContractData k (.objectV t2 h) st =
      (.ok .voidV,
       { st with budget := ⟨st.budget.limit, st.budget.total + 5⟩,
                 storage := { st.storage with map :=
                   (LedgerKey.contractData cid (smallToSc k),
                    some ⟨0, .contractDataE cid (smallToSc k) (.bigintS n)⟩) ::
                     st.storage.map } }) := by
  unfold putContractData
  rw [bind_apply, storageKeyFromRawval_run k st cid ctx hk hframe (by omega)]
  dsimp only
  rw [bind_apply, getCurrentContractId_run (bumpB st 1) cid ctx (by simpa using hframe)]
  dsimp only
  rw [bind_apply, fromHostValTop_small k (bumpB st 1) hk (by simp [bumpB]; omega),
    bumpB_bumpB]
  dsimp only
  rw [bind_apply, fromHostValTop_bigintObj t2 h n (bumpB st (1 + 1))
    (by simpa using hobj) (by simp [bumpB]; omega), bumpB_bumpB]
  dsimp only
  rw [bind_apply]
  dsimp only
  rw [pure_apply]
  rfl

theorem getContractData_run (k : RawVal) (st : Host) (cid : List Nat)
    (ctx : List Frame) (hk : ∀ t h, k ≠ RawVal.objectV t h)
    (hframe : st.context = ctx ++ [Frame.tokenFrame cid])
    (hb : st.budget.total + 1 ≤ st.budget.limit) :
    getContractData k st =
      match st.storage.getEntry (.contractData cid (smallToSc k)) with
      | .error e => (.error e, bumpB st 1)
      | .ok entry =>
        match entry.data with
        | .contractDataE _ _ val => toHostVal val (bumpB st 1)
        | _ =>
          (.error (errStatusMsg .storageExpectContractData
            "expected contract data"), bumpB st 1) := by
  unfold getContractData
  rw [bind_apply, storageKeyFromRawval_run k st cid ctx hk hframe hb]
  dsimp only
  rw [bumpB_storage]

theorem c10_getEntry_bal_true (cid : List Nat) (id : Nat) (b : Int)
    (frozen : Bool) :
    (c10Storage cid id b true frozen).getEntry
        (.contractData cid (.u32S (2 * id))) =
      .ok ⟨0, .contractDataE cid (.u32S (2 * id)) (.bigintS b)⟩ := by
  simp [c10Storage, c10BalEntry, c10StateEntry, Storage.getEntry,
    overlayLookup, parentLookup, c10_balKey_beq, c10_state_bal_beq]

theorem c10_getEntry_bal_false (cid : List Nat) (id : Nat) (b : Int)
    (frozen : Bool) :
    (c10Storage cid id b false frozen).getEntry
        (.contractData cid (.u32S (2 * id))) =
      .error (errStatus .storageMissingValue) := by
  simp [c10Storage, c10BalEntry, c10StateEntry, Storage.getEntry,
    overlayLookup, parentLookup, c10_balKey_beq, c10_state_bal_beq]

theorem c10_getEntry_state (cid : List Nat) (id : Nat) (b : Int)
    (hasBal frozen : Bool) :
    (c10Storage cid id b hasBal frozen).getEntry
        (.contractData cid (.u32S (2 * id + 1))) =
      .ok ⟨0, .contractDataE cid (.u32S (2 * id + 1)) (.boolS frozen)⟩ := by
  cases hasBal <;>
    simp [c10Storage, c10BalEntry, c10StateEntry, Storage.getEntry,
      overlayLookup, parentLookup, c10_stateKey_beq, c10_bal_state_beq]

theorem storedBalance_cons (cid : List Nat) (id : Nat) (n : Int)
    (rest : List (LedgerKey × Option LedgerEntry))
    (parent : List (LedgerKey × LedgerEntry)) :
    storedBalance cid id
      ⟨(.contractData cid (.u32S (2 * id)),
        some ⟨0, .contractDataE cid (.u32S (2 * id)) (.bigintS n)⟩) :: rest,
       parent⟩ = some n := by
  simp [storedBalance, Storage.getEntry, overlayLookup, c10_balKey_beq]

theorem c10_readBalance_true (cid : List Nat) (id : Nat) (b : Int)
    (frozen : Bool) (a : Int) (lim : Nat) (hb : 3 + bitsOf b ≤ lim) :
    readBalance id (tokenHostC10 cid id b true frozen a lim) =
      (.ok ⟨.bigintT, 1⟩,
       { objects := [.bigintO a, .bigintO b],
         storage := c10Storage cid id b true frozen,
         context := [.tokenFrame cid],
         budget := ⟨lim, 3 + bitsOf b⟩,
         events := [] }) := by
  unfold readBalance
  rw [getContractData_run (dataKeyBalanceRaw id) _ cid []
    (by intro t2 h2; simp [dataKeyBalanceRaw]) rfl
    (by dsimp only [tokenHostC10]; omega)]
  dsimp only [tokenHostC10, dataKeyBalanceRaw, smallToSc]
  rw [c10_getEntry_bal_true]
  dsimp only
  rw [toHostVal_bigintS b _ (by simp [bumpB, uint32Max])
    (by simp [bumpB]; omega)]
  dsimp only [bumpB]
  unfold rawToBigIntRef
  rfl

theorem c10_readBalance_false (cid : List Nat) (id : Nat) (b : Int)
    (frozen : Bool) (a : Int) (lim : Nat) (hb : 3 ≤ lim) :
    readBalance id (tokenHostC10 cid id b false frozen a lim) =
      (.ok ⟨.bigintT, 1⟩,
       { objects := [.bigintO a, .bigintO 0],
         storage := c10Storage cid id b false frozen,
         context := [.tokenFrame cid],
         budget := ⟨lim, 3⟩,
         events := [] }) := by
  unfold readBalance
  rw [getContractData_run (dataKeyBalanceRaw id) _ cid []
    (by intro t2 h2; simp [dataKeyBalanceRaw]) rfl
    (by dsimp only [tokenHostC10]; omega)]
  dsimp only [tokenHostC10, dataKeyBalanceRaw, smallToSc]
  rw [c10_getEntry_bal_false]
  dsimp only
  rw [liftH_apply]
  unfold bigintFromU64
  rw [bind_apply]
  unfold meteredBigIntFromU64
  rw [chargeBudget_ok _ _ _ (by simp [bumpB]; omega), bumpB_bumpB]
  dsimp only
  rw [addHostObject_bigint ((0 : Nat) : Int) _ (by simp [bumpB, uint32Max])
    (by simp [bumpB, bitsOf_zero]; omega)]
  dsimp only [bumpB]
  rfl

theorem c10_readState (cid : List Nat) (id : Nat) (b : Int)
    (hasBal frozen : Bool) (objs : List HostObject) (lim t : Nat)
    (ev : List HostEvent) (hb : t + 2 ≤ lim) :
    readState id
      { objects := objs, storage := c10Storage cid id b hasBal frozen,
        context := [.tokenFrame cid], budget := ⟨lim, t⟩, events := ev } =
      (.ok frozen,
       { objects := objs, storage := c10Storage cid id b hasBal frozen,
         context := [.tokenFrame cid], budget := ⟨lim, t + 2⟩,
         events := ev }) := by
  unfold readState
  rw [getContractData_run (dataKeyStateRaw id) _ cid []
    (by intro t2 h2; simp [dataKeyStateRaw]) rfl (by dsimp only; omega)]
  dsimp only [dataKeyStateRaw, smallToSc]
  rw [c10_getEntry_state]
  dsimp only
  rw [toHostVal_boolS frozen _ (by simp [bumpB]; omega), bumpB_bumpB]
  unfold rawToBool
  rfl

theorem c10_compare (a0 b0 : Int) (s : Storage) (c : List Frame)
    (ev : List HostEvent) (lim t : Nat) (hb : t + 2 ≤ lim) :
    tokenBigIntCompare ⟨.bigintT, 1⟩ ⟨.bigintT, 0⟩
      { objects := [.bigintO a0, .bigintO b0], storage := s, context := c,
        budget := ⟨lim, t⟩, events := ev } =
      (.ok (icmp b0 a0),
       { objects := [.bigintO a0, .bigintO b0], storage := s, context := c,
         budget := ⟨lim, t + 2⟩, events := ev }) := by
  unfold tokenBigIntCompare
  rw [tbind_apply, liftH_apply]
  unfold bigintCmp
  rw [visitObjWith_ok extractBigInt ⟨.bigintT, 1⟩ _ _ (by dsimp only; omega)
    (.bigintO b0) b0 (by rfl) rfl]
  rw [visitObjWith_ok extractBigInt ⟨.bigintT, 0⟩ _ _ (by simp [bumpB]; omega)
    (.bigintO a0) a0 (by rfl) rfl, bumpB_bumpB]
  dsimp only
  rw [ordToInt_to_ordering]
  rfl

theorem c10_sub (a0 b0 : Int) (s : Storage) (c : List Frame)
    (ev : List HostEvent) (lim t : Nat)
    (hb : t + 4 + bitsOf (b0 - a0) ≤ lim) :
    bigintSub ⟨.bigintT, 1⟩ ⟨.bigintT, 0⟩
      { objects := [.bigintO a0, .bigintO b0], storage := s, context := c,
        budget := ⟨lim, t⟩, events := ev } =
      (.ok ⟨.bigintT, 2⟩,
       { objects := [.bigintO a0, .bigintO b0, .bigintO (b0 - a0)],
         storage := s, context := c,
         budget := ⟨lim, t + 4 + bitsOf (b0 - a0)⟩, events := ev }) := by
  unfold bigintSub
  rw [bind_apply]
  rw [visitObjWith_ok extractBigInt ⟨.bigintT, 1⟩ _ _ (by dsimp only; omega)
    (.bigintO b0) b0 (by rfl) rfl]
  rw [visitObjWith_ok extractBigInt ⟨.bigintT, 0⟩ _ _ (by simp [bumpB]; omega)
    (.bigintO a0) a0 (by rfl) rfl, bumpB_bumpB]
  unfold meteredBigIntSub
  rw [chargeBudget_ok _ _ _ (by simp [bumpB]; omega), bumpB_bumpB]
  dsimp only
  rw [addHostObject_bigint (b0 - a0) _ (by simp [bumpB, uint32Max])
    (by simp [bumpB]; omega)]
  dsimp only [bumpB]
  rfl

/-- C10: `spend_balance` returns a `ContractError` and leaves the stored
balance unchanged when the state of `id` is frozen, or when the stored
balance (0 when no balance entry exists) compares less than the amount;
otherwise it stores the old balance minus the amount as the new balance
of `id`. Stated over the canonical host family `tokenHostC10` with the
amount object at handle 0. -/
theorem c10_spend_balance (cid : List Nat) (id : Nat) (b a : Int)
    (hasBal frozen : Bool) (lim : Nat)
    (hbud : 24 + bitsOf (if hasBal then b else 0) +
        bitsOf ((if hasBal then b else 0) - a) ≤ lim) :
    (frozen = true → ∃ st2,
      spendBalance id ⟨.bigintT, 0⟩ (tokenHostC10 cid id b hasBal frozen a lim) =
        (.error .contractErr, st2) ∧
      storedBalance cid id st2.storage =
        storedBalance cid id
          (tokenHostC10 cid id b hasBal frozen a lim).storage) ∧
    (frozen = false → (if hasBal then b else 0) < a → ∃ st2,
      spendBalance id ⟨.bigintT, 0⟩ (tokenHostC10 cid id b hasBal frozen a lim) =
        (.error .contractErr, st2) ∧
      storedBalance cid id st2.storage =
        storedBalance cid id
          (tokenHostC10 cid id b hasBal frozen a lim).storage) ∧
    (frozen = false → a ≤ (if hasBal then b else 0) → ∃ st2,
      spendBalance id ⟨.bigintT, 0⟩ (tokenHostC10 cid id b hasBal frozen a lim) =
        (.ok (), st2) ∧
      storedBalance cid id st2.storage =
        some ((if hasBal then b else 0) - a)) := by
  cases frozen with
  | true =>
    refine ⟨fun _ => ?_, fun h => absurd h (by decide),
      fun h => absurd h (by decide)⟩
    cases hasBal with
    | true =>
      have hbud2 : 24 + bitsOf b + bitsOf (b - a) ≤ lim := hbud
      refine ⟨{ objects := [.bigintO a, .bigintO b], storage := c10Storage cid id b true true, context := [.tokenFrame cid], budget := ⟨lim, 3 + bitsOf b + 2⟩, events := [] }, ?_, rfl⟩
      unfold spendBalance
      rw [tbind_apply, c10_readBalance_true cid id b true a lim (by omega)]
      dsimp only
      rw [tbind_apply, c10_readState cid id b true true
        [.bigintO a, .bigintO b] lim (3 + bitsOf b) [] (by omega)]
      dsimp only
      rw [if_pos rfl]
      rfl
    | false =>
      have hbud2 : 24 + bitsOf (0 - a) ≤ lim := hbud
      refine ⟨{ objects := [.bigintO a, .bigintO 0], storage := c10Storage cid id b false true, context := [.tokenFrame cid], budget := ⟨lim, 3 + 2⟩, events := [] }, ?_, rfl⟩
      unfold spendBalance
      rw [tbind_apply, c10_readBalance_false cid id b true a lim (by omega)]
      dsimp only
      rw [tbind_apply, c10_readState cid id b false true
        [.bigintO a, .bigintO 0] lim 3 [] (by omega)]
      dsimp only
      rw [if_pos rfl]
      rfl
  | false =>
    refine ⟨fun h => absurd h (by decide), fun _ hlt => ?_, fun _ hge => ?_⟩
    · cases hasBal with
      | true =>
        have hbud2 : 24 + bitsOf b + bitsOf (b - a) ≤ lim := hbud
        have hlt2 : b < a := hlt
        refine ⟨{ objects := [.bigintO a, .bigintO b], storage := c10Storage cid id b true false, context := [.tokenFrame cid], budget := ⟨lim, 3 + bitsOf b + 2 + 2⟩, events := [] }, ?_, rfl⟩
        unfold spendBalance
        rw [tbind_apply, c10_readBalance_true cid id b false a lim (by omega)]
        dsimp only
        rw [tbind_apply, c10_readState cid id b true false
          [.bigintO a, .bigintO b] lim (3 + bitsOf b) [] (by omega)]
        dsimp only
        rw [if_neg (by decide)]
        rw [tbind_apply, c10_compare a b (c10Storage cid id b true false)
          [.tokenFrame cid] [] lim (3 + bitsOf b + 2) (by omega)]
        dsimp only
        rw [(icmp_lt_iff b a).mpr hlt2]
        rw [if_pos rfl]
        rfl
      | false =>
        have hbud2 : 24 + bitsOf (0 - a) ≤ lim := hbud
        have hlt2 : (0 : Int) < a := hlt
        refine ⟨{ objects := [.bigintO a, .bigintO 0], storage := c10Storage cid id b false false, context := [.tokenFrame cid], budget := ⟨lim, 3 + 2 + 2⟩, events := [] }, ?_, rfl⟩
        unfold spendBalance
        rw [tbind_apply, c10_readBalance_false cid id b false a lim (by omega)]
        dsimp only
        rw [tbind_apply, c10_readState cid id b false false
          [.bigintO a, .bigintO 0] lim 3 [] (by omega)]
        dsimp only
        rw [if_neg (by decide)]
        rw [tbind_apply, c10_compare a 0 (c10Storage cid id b false false)
          [.tokenFrame cid] [] lim (3 + 2) (by omega)]
        dsimp only
        rw [(icmp_lt_iff 0 a).mpr hlt2]
        rw [if_pos rfl]
        rfl
    · cases hasBal with
      | true =>
        have hbud2 : 24 + bitsOf b + bitsOf (b - a) ≤ lim := hbud
        have hge2 : a ≤ b := hge
        refine ⟨{ objects := [.bigintO a, .bigintO b, .bigintO (b - a)], storage := ⟨(LedgerKey.contractData cid (.u32S (2 * id)), some ⟨0, .contractDataE cid (.u32S (2 * id)) (.bigintS (b - a))⟩) :: (c10Storage cid id b true false).map, (c10Storage cid id b true false).parent⟩, context := [.tokenFrame cid], budget := ⟨lim, 3 + bitsOf b + 2 + 2 + 4 + bitsOf (b - a) + 5⟩, events := [] }, ?_,
          storedBalance_cons cid id (b - a)
            ((c10Storage cid id b true false).map)
            ((c10Storage cid id b true false).parent)⟩
        unfold spendBalance
        rw [tbind_apply, c10_readBalance_true cid id b false a lim (by omega)]
        dsimp only
        rw [tbind_apply, c10_readState cid id b true false
          [.bigintO a, .bigintO b] lim (3 + bitsOf b) [] (by omega)]
        dsimp only
        rw [if_neg (by decide)]
        rw [tbind_apply, c10_compare a b (c10Storage cid id b true false)
          [.tokenFrame cid] [] lim (3 + bitsOf b + 2) (by omega)]
        dsimp only
        rw [if_neg (fun hc => absurd ((icmp_lt_iff b a).mp hc) (by omega))]
        rw [tbind_apply, liftH_apply, c10_sub a b (c10Storage cid id b true false)
          [.tokenFrame cid] [] lim (3 + bitsOf b + 2 + 2) (by omega)]
        dsimp only
        unfold writeBalance
        rw [tbind_apply, liftH_apply]
        dsimp only [ObjRef.toRaw]
        rw [putContractData_bigintObj cid [] _ (dataKeyBalanceRaw id)
          (by intro t3 h3; simp [dataKeyBalanceRaw]) .bigintT 2 (b - a)
          (by rfl) (by rfl) (by dsimp only; omega)]
        dsimp only
        rfl
      | false =>
        have hbud2 : 24 + bitsOf (0 - a) ≤ lim := hbud
        have hge2 : a ≤ (0 : Int) := hge
        refine ⟨{ objects := [.bigintO a, .bigintO 0, .bigintO (0 - a)], storage := ⟨(LedgerKey.contractData cid (.u32S (2 * id)), some ⟨0, .contractDataE cid (.u32S (2 * id)) (.bigintS (0 - a))⟩) :: (c10Storage cid id b false false).map, (c10Storage cid id b false false).parent⟩, context := [.tokenFrame cid], budget := ⟨lim, 3 + 2 + 2 + 4 + bitsOf (0 - a) + 5⟩, events := [] }, ?_,
          storedBalance_cons cid id (0 - a)
            ((c10Storage cid id b false false).map)
            ((c10Storage cid id b false false).parent)⟩
        unfold spendBalance
        rw [tbind_apply, c10_readBalance_false cid id b false a lim (by omega)]
        dsimp only
        rw [tbind_apply, c10_readState cid id b false false
          [.bigintO a, .bigintO 0] lim 3 [] (by omega)]
        dsimp only
        rw [if_neg (by decide)]
        rw [tbind_apply, c10_compare a 0 (c10Storage cid id b false false)
          [.tokenFrame cid] [] lim (3 + 2) (by omega)]
        dsimp only
        rw [if_neg (fun hc => absurd ((icmp_lt_iff 0 a).mp hc) (by omega))]
        rw [tbind_apply, liftH_apply, c10_sub a 0 (c10Storage cid id b false false)
          [.tokenFrame cid] [] lim (3 + 2 + 2) (by omega)]
        dsimp only
        unfold writeBalance
        rw [tbind_apply, liftH_apply]
        dsimp only [ObjRef.toRaw]
        rw [putContractData_bigintObj cid [] _ (dataKeyBalanceRaw id)
          (by intro t3 h3; simp [dataKeyBalanceRaw]) .bigintT 2 (0 - a)
          (by rfl) (by rfl) (by dsimp only; omega)]
        dsimp only
        rfl

/-- C10 witness: spending 3 from a stored balance of 5 on an unfrozen
account succeeds and stores 2. -/
theorem c10_witness :
    ∃ st2,
      spendBalance 4 ⟨.bigintT, 0⟩ (tokenHostC10 [7] 4 5 true false 3 100) =
        (.ok (), st2) ∧
      storedBalance [7] 4 st2.storage = some 2 :=
  (c10_spend_balance [7] 4 5 3 true false 100
    (by norm_num [bitsOf, Nat.log2])).2.2 rfl (by decide)

end Soroban
